import Mathlib

/-!
Verification of the redbtn/ai workflow runtime against its specification.

The development shallowly embeds the TypeScript sources:
JavaScript runtime values become the inductive `JVal` (numbers are modelled
as exact decimal fixed-point values; IEEE-754 rounding, `NaN` payloads,
hexadecimal and exponent string-to-number forms are outside every claim
considered here), and each TypeScript function under scrutiny becomes a
Lean function of the same name, translated statement by statement from the
source file.
-/

set_option maxRecDepth 8000

/-- Exact decimal number `m / 10 ^ s`.  Every numeric literal of the
sources is a short decimal, represented here exactly. -/
structure JNum where
  m : Int
  s : Nat
deriving Inhabited, DecidableEq

/-- The integer `k` as a `JNum`. -/
def JNum.ofInt (k : Int) : JNum := ⟨k, 0⟩

/-- Numeric equality of two decimals (cross-multiplied). -/
def JNum.numEq (a b : JNum) : Bool :=
  decide (a.m * (10 : Int) ^ b.s = b.m * (10 : Int) ^ a.s)

/-- Numeric strict order of two decimals (cross-multiplied). -/
def JNum.numLt (a b : JNum) : Bool :=
  decide (a.m * (10 : Int) ^ b.s < b.m * (10 : Int) ^ a.s)

/-- Three-way numeric comparison. -/
def JNum.numCompare (a b : JNum) : Ordering :=
  if a.numLt b then .lt else if a.numEq b then .eq else .gt

/-- Add an integer to a decimal. -/
def JNum.addInt (n : JNum) (k : Int) : JNum :=
  ⟨n.m + k * (10 : Int) ^ n.s, n.s⟩

/-- Strip trailing zero decimals, recursing on the scale. -/
def JNum.canonAux : Int → Nat → JNum
  | m, 0 => ⟨m, 0⟩
  | m, s + 1 => if m % 10 = 0 then JNum.canonAux (m / 10) s else ⟨m, s + 1⟩

/-- Canonical form of a decimal. -/
def JNum.canon (n : JNum) : JNum :=
  JNum.canonAux n.m n.s

/-- Left-pad a digit string with zeros to the given length. -/
def padZeros (len : Nat) (s : String) : String :=
  String.mk (List.replicate (len - s.length) '0') ++ s

/-- Model of JS `String(number)` on the exact decimals used here. -/
def jsNumString (n : JNum) : String :=
  let c := n.canon
  let sign := if c.m < 0 then "-" else ""
  let a := c.m.natAbs
  if c.s = 0 then sign ++ Nat.repr a
  else
    let p := (10 : Nat) ^ c.s
    sign ++ Nat.repr (a / p) ++ "." ++ padZeros c.s (Nat.repr (a % p))

/-- Model of a JavaScript runtime value.  Objects keep their fields as an
insertion-ordered association list, mirroring JS property order. -/
inductive JVal where
  | undef
  | jnull
  | bool (b : Bool)
  | num (n : JNum)
  | str (s : String)
  | arr (xs : List JVal)
  | obj (fields : List (String × JVal))
deriving Inhabited

/-- The integer `k` as a JS number value. -/
def JVal.int (k : Int) : JVal := .num (JNum.ofInt k)

/-- JS word character, the `\w` class of the source regexes: ASCII letters,
digits and underscore. -/
def isWordChar (c : Char) : Bool :=
  c.isAlpha || c.isDigit || c = '_'

/-- Trim leading and trailing whitespace, modelling `String.prototype.trim`
on the whitespace characters that occur in the sources. -/
def trimChars (l : List Char) : List Char :=
  ((l.dropWhile Char.isWhitespace).reverse.dropWhile Char.isWhitespace).reverse

/-- Substring containment, modelling `String.prototype.includes`. -/
def hasSub (needle : List Char) : List Char → Bool
  | [] => needle.isEmpty
  | c :: rest =>
    decide ((c :: rest).take needle.length = needle) || hasSub needle rest

/-- Strip an expected literal from the front of the input, or fail. -/
def stripLit (lit l : List Char) : Option (List Char) :=
  if l.take lit.length = lit then some (l.drop lit.length) else none

/-- Parse the regex fragment `\w+(\.\w+)*` greedily, returning the matched
characters (dots included) and the rest.  Regex backtracking never yields a
shorter match in the source patterns, because every character that could
follow a shorter path match is a word character or a dot. -/
def parsePathF : Nat → List Char → Option (List Char × List Char)
  | 0, _ => none
  | fuel + 1, l =>
    let w := l.takeWhile isWordChar
    let r := l.dropWhile isWordChar
    if w.isEmpty then none
    else if r.head? = some '.' then
      some (((parsePathF fuel r.tail).map
        (fun pr => (w ++ '.' :: pr.1, pr.2))).getD (w, r))
    else some (w, r)

/-- Entry point with enough fuel for the whole input: the recursion drops at
least one character per step. -/
def parsePath (l : List Char) : Option (List Char × List Char) :=
  parsePathF (l.length + 1) l

/-- Value of a digit string, most significant digit first. -/
def natOfDigits (l : List Char) : Nat :=
  l.foldl (fun a c => a * 10 + (c.toNat - 48)) 0

/-- Exact value of a decimal literal `[-]ip[.fp]`.  `parseFloat` rounds to
the nearest double; the claims never depend on that rounding. -/
def decimalToJNum (neg : Bool) (ip fp : List Char) : JNum :=
  let mag : Int := (natOfDigits ip : Int) * (10 : Int) ^ fp.length + (natOfDigits fp : Int)
  ⟨if neg then -mag else mag, fp.length⟩

/-- Full-string match of the source regex `^-?\d+(\.\d+)?$`, with the exact
value of the literal. -/
def parseNumLit (l : List Char) : Option JNum :=
  let (neg, l1) := match l with
    | '-' :: r => (true, r)
    | r => (false, r)
  let ip := l1.takeWhile Char.isDigit
  let r1 := l1.dropWhile Char.isDigit
  if ip.isEmpty then none
  else
    match r1 with
    | [] => some (decimalToJNum neg ip [])
    | '.' :: r2 =>
      if r2.isEmpty then none
      else if r2.all Char.isDigit then some (decimalToJNum neg ip r2)
      else none
    | _ => none

mutual

/-- Model of JS `String(value)` coercion. -/
def jsString : JVal → String
  | .undef => "undefined"
  | .jnull => "null"
  | .bool b => if b then "true" else "false"
  | .num n => jsNumString n
  | .str s => s
  | .arr xs => jsStringElems xs
  | .obj _ => "[object Object]"

/-- `Array.prototype.toString`: elements joined with commas, `null` and
`undefined` elements becoming empty strings. -/
def jsStringElems : List JVal → String
  | [] => ""
  | x :: xs =>
    let hd := match x with
      | .undef => ""
      | .jnull => ""
      | v => jsString v
    match xs with
    | [] => hd
    | _ => hd ++ "," ++ jsStringElems xs

end

/-- JS truthiness. -/
def jsTruthy : JVal → Bool
  | .undef => false
  | .jnull => false
  | .bool b => b
  | .num n => !(n.numEq (JNum.ofInt 0))
  | .str s => decide (s ≠ "")
  | .arr _ => true
  | .obj _ => true

/-- JS strict equality `===`.  Both operands of `===` produced by the safe
evaluator are never both objects (the right side always comes from
`parseValue`, which returns primitives), so modelling reference equality of
objects as `false` is faithful on every reachable input. -/
def jsStrictEq : JVal → JVal → Bool
  | .undef, .undef => true
  | .jnull, .jnull => true
  | .bool a, .bool b => a == b
  | .num a, .num b => a.numEq b
  | .str a, .str b => a == b
  | _, _ => false

/-- JS `ToNumber` on the primitive string forms reached by the evaluator
(`none` models `NaN`; hexadecimal and exponent forms are not modelled). -/
def jsStringToNumber (s : String) : Option JNum :=
  let t := trimChars s.toList
  if t.isEmpty then some (JNum.ofInt 0)
  else
    match t with
    | '+' :: r => parseNumLit r
    | r => parseNumLit r

/-- JS `ToNumber` on primitives (`none` models `NaN`). -/
def jsToNumber : JVal → Option JNum
  | .undef => none
  | .jnull => some (JNum.ofInt 0)
  | .bool b => some (JNum.ofInt (if b then 1 else 0))
  | .num n => some n
  | .str s => jsStringToNumber s
  | .arr _ => none
  | .obj _ => none

/-- JS `ToPrimitive` with number hint as it acts on the values reached by
the relational operators: plain objects stringify to `[object Object]`,
arrays to their joined elements. -/
def toPrimitiveNum : JVal → JVal
  | .obj _ => .str "[object Object]"
  | .arr xs => .str (jsString (.arr xs))
  | v => v

/-- Lexicographic comparison of strings (code-point order). -/
def strCompare (x y : String) : Ordering :=
  if x < y then .lt else if x = y then .eq else .gt

/-- JS abstract relational comparison; `none` models an unordered (`NaN`)
outcome, on which every relational operator is false. -/
def jsCmp (a b : JVal) : Option Ordering :=
  match toPrimitiveNum a, toPrimitiveNum b with
  | .str x, .str y => some (strCompare x y)
  | pa, pb =>
    match jsToNumber pa, jsToNumber pb with
    | some x, some y => some (x.numCompare y)
    | _, _ => none

/-- Apply a relational operator by name. -/
def applyRel (op : String) (a b : JVal) : Bool :=
  match jsCmp a b with
  | none => false
  | some o =>
    match op with
    | ">" => decide (o = .gt)
    | "<" => decide (o = .lt)
    | ">=" => decide (o ≠ .lt)
    | "<=" => decide (o ≠ .gt)
    | _ => false

/-- Apply a comparison operator of the evaluator by name. -/
def applyCompOp (op : String) (a b : JVal) : JVal :=
  match op with
  | "===" => .bool (jsStrictEq a b)
  | "!==" => .bool (!jsStrictEq a b)
  | _ => .bool (applyRel op a b)

/-- First field of a JS object with the given name. -/
def lookupField (fields : List (String × JVal)) (key : String) : Option JVal :=
  (fields.find? (fun p => decide (p.1 = key))).map (fun p => p.2)

/-- A numeric string is a canonical array/string index iff it round-trips
through `Nat` notation. -/
def canonicalIndex (key : String) : Option Nat :=
  let l := key.toList
  if !l.isEmpty && l.all Char.isDigit then
    let n := natOfDigits l
    if Nat.repr n = key then some n else none
  else none

/-- Split a string at every dot, modelling `String.prototype.split('.')`. -/
def splitDotAux : List Char → List Char → List String
  | acc, [] => [String.mk acc.reverse]
  | acc, '.' :: rest => String.mk acc.reverse :: splitDotAux [] rest
  | acc, c :: rest => splitDotAux (c :: acc) rest

/-- `s.split('.')`. -/
def splitOnDot (s : String) : List String :=
  splitDotAux [] s.toList

/-- Model of JS property read `value[key]` for the value shapes the nested
property walkers can reach (property reads on primitives yield `undefined`
except string length/indexing). -/
def jsIndexVal (v : JVal) (key : String) : JVal :=
  match v with
  | .obj fields => (lookupField fields key).getD .undef
  | .arr xs =>
    if key = "length" then JVal.int (xs.length : Int)
    else
      match canonicalIndex key with
      | some n => (xs[n]?).getD .undef
      | none => .undef
  | .str s =>
    if key = "length" then JVal.int (s.length : Int)
    else
      match canonicalIndex key with
      | some n =>
        match (s.toList)[n]? with
        | some c => .str (String.mk [c])
        | none => .undef
      | none => .undef
  | _ => (.undef)

namespace ConditionEvaluator

/-- Walk the remaining path parts, returning `undefined` as soon as the
current value is `null` or `undefined` (the loop of the source function). -/
def walkPath : JVal → List String → JVal
  | cur, [] => cur
  | cur, p :: rest =>
    match cur with
    | .undef => .undef
    | .jnull => .undef
    | v => walkPath (jsIndexVal v p) rest

/-- Model of `getNestedProperty` from `conditionEvaluator` (the copy used by
conditional edges): the root must be a truthy `typeof === 'object'` value. -/
def getNestedProperty (o : JVal) (path : String) : JVal :=
  match o with
  | .obj _ => walkPath o (splitOnDot path)
  | .arr _ => walkPath o (splitOnDot path)
  | _ => (.undef)

/-- Model of `parseValue` from `conditionEvaluator`: literal strings,
numbers, booleans, `null`, `undefined`, then fallback to the raw string. -/
def parseValue (value : String) : JVal :=
  let t := trimChars value.toList
  let isQuoted (q : Char) : Bool :=
    match t.head?, t.getLast? with
    | some a, some b => a = q && b = q
    | _, _ => false
  if isQuoted '\'' || isQuoted '\"' then .str (String.mk ((t.drop 1).dropLast))
  else
    match parseNumLit t with
    | some n => .num n
    | none =>
      if t = ("true").toList then .bool true
      else if t = ("false").toList then .bool false
      else if t = ("null").toList then .jnull
      else if t = ("undefined").toList then .undef
      else .str (String.mk t)

/-- Comparison operators in an order equivalent to the source regex
alternation `(===|!==|>|<|>=|<=)` followed by a literal space: testing the
two-character operators first coincides with the regex because a match of
`>` or `<` requires the very next character to be the space. -/
def compOps : List String := ["===", "!==", ">=", "<=", ">", "<"]

/-- Relational operators of the complex pattern, `(<|>|<=|>=)`, under the
same equivalence. -/
def relOps : List String := ["<=", ">=", "<", ">"]

/-- Strip one of the operators followed by a single space. -/
def stripOpSpace : List String → List Char → Option (String × List Char)
  | [], _ => none
  | op :: ops, l =>
    match stripLit (op.toList ++ [' ']) l with
    | some r => some (op, r)
    | none => stripOpSpace ops l

/-- The regex fragment `.+$`: non-empty and free of line terminators
(`.` does not match `\n` or `\r`). -/
def dotPlusOk (l : List Char) : Bool :=
  !l.isEmpty && l.all (fun c => !(c = '\n' || c = '\r'))

/-- Pattern 1 of `evaluateExpression`:
`^state\.(\w+(?:\.\w+)*) (===|!==|>|<|>=|<=) (.+)$`. -/
def matchComparison (t : List Char) : Option (List Char × String × List Char) := do
  let r ← stripLit (("state.").toList) t
  let (p, r2) ← parsePath r
  match r2 with
  | ' ' :: r3 =>
    let (op, rest) ← stripOpSpace compOps r3
    if dotPlusOk rest then some (p, op, rest) else none
  | _ => none

/-- Patterns 2 and 3: `^state\.(path) SEP state\.(path)$` for a separator. -/
def matchTwoPaths (sep : List Char) (t : List Char) : Option (List Char × List Char) := do
  let r ← stripLit (("state.").toList) t
  let (p1, r2) ← parsePath r
  let r3 ← stripLit sep r2
  let (p2, r4) ← parsePath r3
  match r4 with
  | [] => some (p1, p2)
  | _ => none

/-- Pattern 4:
`^state\.(path) && state\.(path) (<|>|<=|>=) state\.(path)$`. -/
def matchComplex (t : List Char) : Option (List Char × List Char × String × List Char) := do
  let r ← stripLit (("state.").toList) t
  let (p1, r2) ← parsePath r
  let r3 ← stripLit ((" && state.").toList) r2
  let (p2, r4) ← parsePath r3
  match r4 with
  | ' ' :: r5 =>
    let (op, r6) ← stripOpSpace relOps r5
    let r7 ← stripLit (("state.").toList) r6
    let (p3, r8) ← parsePath r7
    match r8 with
    | [] => some (p1, p2, op, p3)
    | _ => none
  | _ => none

/-- Pattern 5: `^state\.(\w+(?:\.\w+)*)$`. -/
def matchProp (t : List Char) : Option (List Char) := do
  let r ← stripLit (("state.").toList) t
  let (p, r2) ← parsePath r
  match r2 with
  | [] => some p
  | _ => none

/-- Model of `evaluateExpression`: trim, auto-prefix bare paths with
`state.`, then try the five patterns in source order; `none` models the
`Unable to parse expression` throw. -/
def evaluateExpression (expr : String) (state : JVal) : Option JVal :=
  let t0 := trimChars expr.toList
  let t :=
    if t0.take 6 = ("state.").toList then t0
    else
      match parsePath t0 with
      | some (_, []) => ("state.").toList ++ t0
      | _ => t0
  match matchComparison t with
  | some (p, op, rest) =>
    let leftValue := getNestedProperty state (String.mk p)
    let rightValue := parseValue (String.mk rest)
    some (applyCompOp op leftValue rightValue)
  | none =>
    match matchTwoPaths ((" && state.").toList) t with
    | some (p1, p2) =>
      let v1 := getNestedProperty state (String.mk p1)
      let v2 := getNestedProperty state (String.mk p2)
      some (.bool (jsTruthy v1 && jsTruthy v2))
    | none =>
      match matchTwoPaths ((" || state.").toList) t with
      | some (p1, p2) =>
        let v1 := getNestedProperty state (String.mk p1)
        let v2 := getNestedProperty state (String.mk p2)
        some (.bool (jsTruthy v1 || jsTruthy v2))
      | none =>
        match matchComplex t with
        | some (p1, p2, op, p3) =>
          let v1 := getNestedProperty state (String.mk p1)
          let v2 := getNestedProperty state (String.mk p2)
          let v3 := getNestedProperty state (String.mk p3)
          if jsTruthy v1 then some (.bool (applyRel op v2 v3))
          else some (.bool false)
        | none =>
          match matchProp t with
          | some p => some (getNestedProperty state (String.mk p))
          | none => none

/-- Safe pattern 1: `^state\.\w+(\.\w+)*$`. -/
def safeP1 (t : List Char) : Bool :=
  match stripLit (("state.").toList) t with
  | some r =>
    match parsePath r with
    | some (_, []) => true
    | _ => false
  | none => false

/-- Safe pattern 2: `^\w+(\.\w+)*$`. -/
def safeP2 (t : List Char) : Bool :=
  match parsePath t with
  | some (_, []) => true
  | _ => false

/-- Safe pattern 3: `^state\.\w+(\.\w+)* (===|!==|>|<|>=|<=) .+$`. -/
def safeP3 (t : List Char) : Bool :=
  (matchComparison t).isSome

/-- Safe pattern 4: `^state\.\w+(\.\w+)* && state\.\w+(\.\w+)*$`. -/
def safeP4 (t : List Char) : Bool :=
  (matchTwoPaths ((" && state.").toList) t).isSome

/-- Safe pattern 5: `^state\.\w+(\.\w+)* \|\| state\.\w+(\.\w+)*$`. -/
def safeP5 (t : List Char) : Bool :=
  (matchTwoPaths ((" || state.").toList) t).isSome

/-- Safe pattern 6: the complex comparison with logical AND. -/
def safeP6 (t : List Char) : Bool :=
  (matchComplex t).isSome

/-- The denylist of `isSafeExpression`. -/
def dangerousKeywords : List String :=
  ["eval", "Function", "constructor", "__proto__", "prototype"]

/-- Some denylist keyword occurs in the (already trimmed) expression. -/
def dangerousIn (t : List Char) : Bool :=
  dangerousKeywords.any (fun k => hasSub k.toList t)

/-- `trimmed.includes(keyword)` for some denylist keyword. -/
def hasDangerousKeyword (expr : String) : Bool :=
  dangerousIn (trimChars expr.toList)

/-- The allowlist of `isSafeExpression` on the trimmed expression. -/
def anySafePattern (t : List Char) : Bool :=
  safeP1 t || safeP2 t || safeP3 t || safeP4 t || safeP5 t || safeP6 t

/-- Model of `isSafeExpression`: some allowlisted pattern matches the
trimmed expression and no denylist keyword occurs in it. -/
def isSafeExpression (expr : String) : Bool :=
  anySafePattern (trimChars expr.toList)
    && !dangerousIn (trimChars expr.toList)

/-- Model of `createConditionFunction`.  `targets = none` models calls
without a targets object; the compiler always passes one (possibly empty).
The returned function yields the key LangGraph routes on. -/
def createConditionFunction (expression : String)
    (targets : Option (List (String × String))) (fallback : Option String) :
    JVal → String :=
  -- `!expression || expression.trim() === ''`
  if trimChars expression.toList = [] then fun _ => fallback.getD ("__end__")
  else if !isSafeExpression expression then fun _ => fallback.getD ("__end__")
  else fun state =>
    match evaluateExpression expression state with
    | none =>
      -- the catch block around the evaluation
      if fallback.isSome then "__fallback__" else "__end__"
    | some result =>
      let resultStr := jsString result
      match targets with
      | some tgs =>
        if (tgs.find? (fun p => decide (p.1 = resultStr))).isSome then resultStr
        else
          match tgs.find? (fun p => decide (p.2 = resultStr)) with
          | some kv => kv.1
          | none => if fallback.isSome then "__fallback__" else "__end__"
      | none =>
        -- the boolean branch: with no targets object `targets?.['true']` is
        -- undefined, so every remaining case returns the fallback key
        if fallback.isSome then "__fallback__" else "__end__"

end ConditionEvaluator

/-- JSON string escaping for the characters exercised here (other control
characters would take a `\u00XX` form; no claim reaches them). -/
def jsonEscape : List Char → List Char
  | [] => []
  | c :: rest =>
    (if c = '\"' then ['\\', '\"']
     else if c = '\\' then ['\\', '\\']
     else if c = '\n' then ['\\', 'n']
     else if c = '\r' then ['\\', 'r']
     else if c = '\t' then ['\\', 't']
     else [c]) ++ jsonEscape rest

/-- A JSON string literal. -/
def jsonQuote (s : String) : String :=
  String.mk ('\"' :: (jsonEscape s.toList ++ ['\"']))

/-- Join rendered JSON items with commas. -/
def joinComma : List String → String
  | [] => ""
  | [x] => x
  | x :: xs => x ++ "," ++ joinComma xs

mutual

/-- Model of `JSON.stringify`; `none` models the JS result `undefined`. -/
def jsonStringify : JVal → Option String
  | .undef => none
  | .jnull => some ("null")
  | .bool b => some (if b then "true" else "false")
  | .num n => some (jsNumString n)
  | .str s => some (jsonQuote s)
  | .arr xs => some ("[" ++ joinComma (jsonElems xs) ++ "]")
  | .obj fs => some ("\x7b" ++ joinComma (jsonFields fs) ++ "\x7d")

/-- Array elements: `undefined` serializes as `null`. -/
def jsonElems : List JVal → List String
  | [] => []
  | x :: xs =>
    (match jsonStringify x with
     | some s => s
     | none => "null") :: jsonElems xs

/-- Object fields: fields holding `undefined` are dropped. -/
def jsonFields : List (String × JVal) → List String
  | [] => []
  | (k, v) :: fs =>
    match jsonStringify v with
    | some s => (jsonQuote k ++ ":" ++ s) :: jsonFields fs
    | none => jsonFields fs

end

namespace TemplateRenderer

/-- Model of `getNestedProperty` from `templateRenderer`: an
optional-chaining reduce over the dot-separated path. -/
def getNestedProperty (o : JVal) (path : String) : JVal :=
  (splitOnDot path).foldl
    (fun current key =>
      match current with
      | .undef => .undef
      | .jnull => .undef
      | v => jsIndexVal v key) o

/-- The literal `{{state.` opening a placeholder. -/
def phOpen : List Char := '{' :: '{' :: ("state.").toList

/-- The literal `}}` closing a placeholder. -/
def phClose : List Char := ['}', '}']

/-- Match one placeholder `{{state.<path>}}` at the head of the input,
returning the path and the rest.  The path is the regex `\w+(?:\.\w+)*`;
a shorter backtracked path can never be followed by `}}`, so the greedy
parse is exact. -/
def tryPlaceholder (l : List Char) : Option (List Char × List Char) := do
  let r ← stripLit phOpen l
  let (p, r2) ← parsePath r
  let r3 ← stripLit phClose r2
  some (p, r3)

/-- The replacement text of one placeholder: the source callback of the
`template.replace` call in `renderTemplate`. -/
def renderValue (state : JVal) (path : List Char) : List Char :=
  let pathStr := String.mk path
  match getNestedProperty state pathStr with
  | .undef =>
    -- `value === undefined`: fall back to `data.<path>`
    if path.take 5 = ("data.").toList then phOpen ++ path ++ phClose
    else
      match getNestedProperty state (String.mk (("data.").toList ++ path)) with
      | .undef => phOpen ++ path ++ phClose
      | dv => (jsString dv).toList
  | .obj fs => ((jsonStringify (.obj fs)).getD "").toList
  | .arr xs => ((jsonStringify (.arr xs)).getD "").toList
  | v => (jsString v).toList

/-- Left-to-right scan of the global regex replace: at every position try
the placeholder pattern; on a match emit the replacement and continue after
it, otherwise keep the character.  Fuel is always sufficient at the entry
point below. -/
def renderScanF : Nat → JVal → List Char → List Char
  | 0, _, l => l
  | _ + 1, _, [] => []
  | fuel + 1, st, c :: rest =>
    match tryPlaceholder (c :: rest) with
    | some (p, after) => renderValue st p ++ renderScanF fuel st after
    | none => c :: renderScanF fuel st rest

/-- Model of `renderTemplate`: substitute every `{{state.<path>}}`
placeholder.  The function is total: unresolved placeholders are preserved
(with a logged warning in the source), never raised. -/
def renderTemplate (template : String) (state : JVal) : String :=
  String.mk (renderScanF (template.toList.length + 1) state template.toList)

end TemplateRenderer

namespace StepExecutor

/-- The five primitive step kinds of the universal node. -/
inductive StepType where
  | neuron
  | tool
  | transform
  | conditional
  | loop
deriving DecidableEq

/-- Printable name of a step kind, as interpolated into error messages. -/
def stepTypeName : StepType → String
  | .neuron => "neuron"
  | .tool => "tool"
  | .transform => "transform"
  | .conditional => "conditional"
  | .loop => "loop"

/-- A universal-node step: a kind, a kind-specific config, and an optional
guard condition. -/
structure UniversalStep where
  type : StepType
  config : JVal
  condition : Option String

/-- The trimmed condition is wrapped in double braces (the source checks
`startsWith('\x7b\x7b') && endsWith('\x7d\x7d')`). -/
def isBracedCondition (c : String) : Bool :=
  let t := trimChars c.toList
  decide (t.take 2 = ['{', '{']) && decide (t.reverse.take 2 = ['}', '}'])

/-- The inner expression, `trimmed.slice(2, -2).trim()`. -/
def stepConditionExpr (c : String) : String :=
  String.mk (trimChars (((trimChars c.toList).drop 2).dropLast.dropLast))

/-- Model of `evaluateStepCondition`.  The `jsEval` parameter models the
dynamic evaluation `new Function('state', 'return ' + expression)(state)`
of the source — arbitrary JavaScript, outside any restricted grammar;
`none` models a construction or evaluation throw (caught and turned into
`false`).  A condition not wrapped in double braces is always `false`. -/
def evaluateStepCondition (jsEval : String → JVal → Option JVal)
    (condition : String) (state : JVal) : Bool :=
  if isBracedCondition condition then
    match jsEval (stepConditionExpr condition) state with
    | some v => jsTruthy v
    | none => false
  else false

/-- Model of `executeStep`: check the optional condition (a present but
empty condition string is falsy in JS and skips the check), then dispatch
by step type.  The per-kind executors live in separate modules and are a
parameter here. -/
def executeStep (jsEval : String → JVal → Option JVal)
    (execs : StepType → JVal → JVal → Except String (List (String × JVal)))
    (step : UniversalStep) (state : JVal) :
    Except String (List (String × JVal)) :=
  match step.condition with
  | some c =>
    if c ≠ "" then
      if !evaluateStepCondition jsEval c state then Except.ok []
      else execs step.type step.config state
    else execs step.type step.config state
  | none => execs step.type step.config state

end StepExecutor

namespace UniversalNode

/-- JS property assignment on an insertion-ordered field list: overwrite in
place, else append. -/
def assignField : List (String × JVal) → String → JVal → List (String × JVal)
  | [], k, v => [(k, v)]
  | (k1, v1) :: rest, k, v =>
    if k1 = k then (k, v) :: rest else (k1, v1) :: assignField rest k v

/-- `Object.assign(target, source)`. -/
def assignAll (target source : List (String × JVal)) : List (String × JVal) :=
  source.foldl (fun acc kv => assignField acc kv.1 kv.2) target

/-- Set a value at a dot-path inside a nested field tree, creating empty
objects along the way (`convertFlatToNested`'s navigation loop).  When an
intermediate key holds a non-object, strict-mode JS would throw on the
final assignment; that corner is modelled as a no-op and reached by no
claim. -/
def setPath : List (String × JVal) → List String → JVal → List (String × JVal)
  | fields, [], _ => fields
  | fields, [k], v => assignField fields k v
  | fields, k :: ks, v =>
    match lookupField fields k with
    | some (JVal.obj inner) => assignField fields k (JVal.obj (setPath inner ks v))
    | some _ => fields
    | none => assignField fields k (JVal.obj (setPath [] ks v))

/-- Model of `convertFlatToNested`: expand dotted keys into nested
objects, in insertion order. -/
def convertFlatToNested (flat : List (String × JVal)) : List (String × JVal) :=
  flat.foldl
    (fun nested kv =>
      if kv.1.toList.contains '.' then setPath nested (splitOnDot kv.1) kv.2
      else assignField nested kv.1 kv.2) []

/-- `\x7b...target\x7d`: the enumerable own fields spread from a value (spreading a
primitive yields none; string index spreading is reached by no claim). -/
def spreadFields : JVal → List (String × JVal)
  | .obj fs => fs
  | _ => []

mutual

/-- Model of `deepMergeObjects`: start from a spread of the target and
merge the source fields, recursing into plain-object values. -/
def deepMergeObjects : JVal → JVal → JVal
  | t, .obj sf => .obj (deepMergeFields (spreadFields t) sf)
  | t, _ => .obj (spreadFields t)

/-- The field loop of `deepMergeObjects`: plain objects merge recursively
against `result[key] || \x7b\x7d`; arrays, primitives and `null` overwrite. -/
def deepMergeFields : List (String × JVal) → List (String × JVal) → List (String × JVal)
  | acc, [] => acc
  | acc, (k, v) :: rest =>
    match v with
    | .obj vf =>
      let cur := (lookupField acc k).getD JVal.undef
      let base := if jsTruthy cur then cur else JVal.obj []
      deepMergeFields (assignField acc k (deepMergeObjects base (JVal.obj vf))) rest
    | _ => deepMergeFields (assignField acc k v) rest

end

/-- `state.nodeCounter || 1`, used as the running node number.  The
counter is numeric in every reachable state. -/
def nodeCounterOf (state : JVal) : JNum :=
  match state with
  | .obj fs =>
    match lookupField fs "nodeCounter" with
    | some (JVal.num n) => if jsTruthy (JVal.num n) then n else JNum.ofInt 1
    | _ => JNum.ofInt 1
  | _ => JNum.ofInt 1

/-- The error message of a failed step, `Step k (type) failed: e`. -/
def stepErrorMessage (k : Nat) (ty : StepExecutor.StepType) (e : String) : String :=
  "Step " ++ Nat.repr k ++ " (" ++ StepExecutor.stepTypeName ty ++ ") failed: " ++ e

/-- The delta returned when a step throws:
`\x7b ...nestedUpdates, data: \x7b ...nestedUpdates.data, error, nextGraph: 'error_handler' \x7d \x7d`. -/
def errorDelta (k : Nat) (ty : StepExecutor.StepType) (e : String)
    (updates : List (String × JVal)) : List (String × JVal) :=
  let nestedUpdates := convertFlatToNested updates
  assignField nestedUpdates "data"
    (JVal.obj (assignField
      (assignField (spreadFields ((lookupField nestedUpdates "data").getD JVal.undef))
        "error" (JVal.str (stepErrorMessage k ty e)))
      "nextGraph" (JVal.str "error_handler")))

/-- The step loop of `universalNode`: execute steps sequentially against
the original state deep-merged with the accumulated (nested) updates; on
the first exception return the error delta instead of re-raising. -/
def runStepsGo (exec : StepExecutor.UniversalStep → JVal → Except String (List (String × JVal)))
    (state : JVal) :
    Nat → List (String × JVal) → List StepExecutor.UniversalStep → List (String × JVal)
  | _, updates, [] => convertFlatToNested updates
  | k, updates, s :: rest =>
    match exec s (deepMergeObjects state (JVal.obj (convertFlatToNested updates))) with
    | .ok d => runStepsGo exec state (k + 1) (assignAll updates d) rest
    | .error e => errorDelta k s.type e updates

/-- Model of the step-execution phase of `universalNode` (config already
normalized to a step list): a total function — step exceptions are caught,
never re-raised. -/
def universalNodeSteps
    (exec : StepExecutor.UniversalStep → JVal → Except String (List (String × JVal)))
    (steps : List StepExecutor.UniversalStep) (state : JVal) : List (String × JVal) :=
  runStepsGo exec state 1
    [("nodeCounter", JVal.num ((nodeCounterOf state).addInt 1))] steps

/-- Mirror of the loop that reports the first failing step: its 1-based
number, kind, error message and the flat updates accumulated before it. -/
def firstFailure (exec : StepExecutor.UniversalStep → JVal → Except String (List (String × JVal)))
    (state : JVal) :
    Nat → List (String × JVal) → List StepExecutor.UniversalStep →
    Option (Nat × StepExecutor.StepType × String × List (String × JVal))
  | _, _, [] => none
  | k, updates, s :: rest =>
    match exec s (deepMergeObjects state (JVal.obj (convertFlatToNested updates))) with
    | .ok d => firstFailure exec state (k + 1) (assignAll updates d) rest
    | .error e => some (k, s.type, e, updates)

/-- Read a value at a field path in a nested field list. -/
def lookupPath (fields : List (String × JVal)) : List String → Option JVal
  | [] => none
  | [k] => lookupField fields k
  | k :: ks =>
    match lookupField fields k with
    | some (JVal.obj inner) => lookupPath inner ks
    | _ => none

end UniversalNode

/-! ## Graph compiler validation (src/src/lib/graphs/compiler.ts, nodeRegistry.ts) -/

namespace Compiler

end Compiler

/-! ## MCP stdio pool tool routing (src/src/lib/mcp/stdio-pool.ts) -/

namespace StdioPool

/-- The optional `_meta` object of a tool call
(`{ conversationId?, generationId?, messageId? }`). -/
structure Meta where
  conversationId : Option String := none
  generationId : Option String := none
  messageId : Option String := none
deriving DecidableEq, Repr

/-- A `tools/call` request as the stdio client issues it. -/
structure ToolCallRequest where
  method : String
  name : String
  arguments : JVal
  meta_ : Option Meta

/-- `McpClientStdio.callTool` (client-stdio.ts, staged as the second
embedded document of src/src/lib/nodes/executor-universal.ts): issues one
`tools/call` request whose params are `{name, arguments: args}`.  The
method takes no meta parameter, so the optional `_meta` member of the
params — the one server-stdio.ts reads as `params._meta` — is never
present (`none`). -/
def clientCallTool (toolName : String) (args : JVal) : ToolCallRequest :=
  ⟨"tools/call", toolName, args, none⟩

/-- One pooled child process, by what `listTools` returns for it: the tool
names, or an error when the query throws. -/
structure ClientState where
  tools : Except String (List String)

/-- `StdioServerPool.callTool`: walk the children in registration order; a
child whose `listTools` throws is skipped; the first child whose tools
list contains the name handles the call — the pool invokes
`client.callTool(toolName, args)`, dropping its own `meta` parameter
(which the client could not accept anyway); when no child has the tool,
throw `Tool not found: <name>`. -/
def callTool (clients : List (String × ClientState)) (toolName : String)
    (args : JVal) (meta_ : Option Meta) :
    Except String (String × ToolCallRequest) :=
  match clients with
  | [] => Except.error ("Tool not found: " ++ toolName)
  | (serverName, c) :: rest =>
    match c.tools with
    | Except.error _ => callTool rest toolName args meta_
    | Except.ok tools =>
      if tools.contains toolName then
        Except.ok (serverName, clientCallTool toolName args)
      else callTool rest toolName args meta_

end StdioPool

/-! ## Tier-based access control (src/src/lib/neurons/NeuronRegistry.ts,
src/src/lib/graphs/GraphRegistry.ts `validateAccess` / `getUserTier`) -/

namespace NeuronRegistry

/-- The outcome of the user lookup inside `getUserTier`: the `require` or
query may throw, the user may be missing, or found with an
`accountLevel`. -/
inductive UserLookup where
  | failed
  | missing
  | found (accountLevel : Int)
deriving DecidableEq, Repr

/-- `getUserTier` (NeuronRegistry.ts): the user's `accountLevel`,
defaulting to 4 (FREE) when the user is not found or the lookup throws. -/
def getUserTier : UserLookup → Int
  | UserLookup.failed => 4
  | UserLookup.missing => 4
  | UserLookup.found t => t

/-- The `NeuronConfig` fields `validateAccess` reads. -/
structure NeuronConfig where
  id : String
  userId : String
  tier : Int
deriving DecidableEq, Repr

/-- `validateAccess` (NeuronRegistry.ts): own neuron → allowed; system
neuron → allowed unless `userTier > config.tier` (throws the tier
message); any other owner → throws the private message.  A throw is
`Except.error` with the thrown message. -/
def validateAccess (config : NeuronConfig) (userId : String)
    (lookup : UserLookup) : Except String Unit :=
  if config.userId = userId then Except.ok ()
  else if config.userId = "system" then
    if getUserTier lookup > config.tier then
      Except.error ("Neuron '" ++ config.id ++ "' requires tier " ++
        jsString (JVal.int config.tier) ++ " or higher (user has tier " ++
        jsString (JVal.int (getUserTier lookup)) ++ ")")
    else Except.ok ()
  else Except.error ("Neuron '" ++ config.id ++ "' is private")

end NeuronRegistry

namespace GraphRegistry

/-- The outcome of the user lookup inside `getUserTier`: the query may
throw, the user may be missing, or found — with `accountLevel` absent or
not a number (`none`) or a number (`some`). -/
inductive UserLookup where
  | failed
  | missing
  | found (accountLevel : Option Int)
deriving DecidableEq, Repr

/-- `getUserTier` (GraphRegistry.ts): the user's numeric `accountLevel`,
defaulting to 4 (FREE) when the user is not found, the field is not a
number, or the lookup throws. -/
def getUserTier : UserLookup → Int
  | UserLookup.failed => 4
  | UserLookup.missing => 4
  | UserLookup.found none => 4
  | UserLookup.found (some t) => t

/-- The `GraphConfig` fields `validateAccess` reads (`tier` is a required
`number` in src/src/lib/types/graph.ts). -/
structure GraphOwnership where
  graphId : String
  userId : String
  tier : Int
deriving DecidableEq, Repr

/-- `validateAccess` (GraphRegistry.ts): own graph → allowed; system
graph → allowed unless `userTier > graphConfig.tier`; any other owner →
throws the private message. -/
def validateAccess (graphConfig : GraphOwnership) (userId : String)
    (lookup : UserLookup) : Except String Unit :=
  if graphConfig.userId = userId then Except.ok ()
  else if graphConfig.userId = "system" then
    if getUserTier lookup > graphConfig.tier then
      Except.error ("Graph '" ++ graphConfig.graphId ++ "' requires tier " ++
        jsString (JVal.int graphConfig.tier) ++ " or higher (user has tier " ++
        jsString (JVal.int (getUserTier lookup)) ++ ")")
    else Except.ok ()
  else Except.error ("Graph '" ++ graphConfig.graphId ++
    "' is private and owned by another user")

end GraphRegistry

/-! ## respond() generation-conflict abort (src/src/functions/respond.ts) -/

namespace Respond

/-- The externally visible effects of the `respond` slice that follows
graph resolution (settings loading and `getGraph` issue none of these):
logger calls, the `store_message` MCP call, the
`activeStreams.set(generationId, …)` registration performed on entry to
`streamThroughGraphWithMemory`, and the non-streaming `graph.invoke`. -/
inductive Effect where
  | logWarn (message : String)
  | logInfo (message : String)
  | storeMessage (role : String) (content : String)
  | registerStream (generationId : String)
  | invokeGraph
deriving DecidableEq, Repr

/-- `respond` from the `red.logger.startGeneration(conversationId)` call
on (respond.ts lines 154 onward), as its result and the effects issued in
source order: no granted generation id → log a conflict warning and throw
`A generation is already in progress for this conversation`; otherwise
log the start, store the user message via `store_message`, build the
initial state, and dispatch — the streaming path enters
`streamThroughGraphWithMemory`, which registers the stream under the
generation id; the non-streaming path invokes the compiled graph. -/
def respondRun (startGen : Option String) (stream : Bool)
    (queryMessage : String) : Except String Unit × List Effect :=
  match startGen with
  | none =>
    (Except.error ("A generation is already in progress for this conversation"),
     [Effect.logWarn ("Generation already in progress for conversation")])
  | some generationId =>
    (Except.ok (),
     [Effect.logInfo ("Starting generation " ++ generationId),
      Effect.storeMessage ("user") queryMessage] ++
     (if stream then [Effect.registerStream generationId]
      else [Effect.invokeGraph]))

end Respond

/-! ## Streaming think-tag transformer
(src/src/functions/respond.ts `streamThroughGraphWithMemory`, lines
486-680: the per-character scan over the `on_llm_stream` content of the
respond node, the end-of-stream flush, the batch flush, and what is
persisted).  Chunk batching yields on `BATCH_SIZE` characters; the 50 ms
interval trigger is modelled as never elapsed. -/

namespace Streaming

/-- The events the generator yields that C4 concerns: the thinking status
event, the synthetic single-space content chunk, per-character thinking
chunks, and batched content chunks. -/
inductive StreamEv where
  | status (action : String)
  | space
  | thinkingChunk (c : Char)
  | chunk (s : String)
deriving DecidableEq, Repr

/-- The scanner's mutable state: `fullContent`, the `streamedTokens` /
`streamedThinking` flags, the thinking accumulator, the thinking-mode
flag, the pending tag-detection buffer, the batch buffer, and the
thinking records stored via `db.storeThought` (in store order). -/
structure StState where
  fullContent : List Char
  streamedTokens : Bool
  streamedThinking : Bool
  thinkingBuffer : List Char
  inThinkingTag : Bool
  pendingBuffer : List Char
  chunkBuffer : List Char
  thoughts : List String
deriving DecidableEq, Repr

/-- All accumulators start empty, all flags false. -/
def initState : StState := ⟨[], false, false, [], false, [], [], []⟩

/-- The context that gates the side-band behavior: whether a `requestId`
was supplied (status + thinking-chunk yields) and whether
`generationId && conversationId` is truthy (storing thoughts).  In the
streaming path both ids are present, but the code guards on them. -/
structure StreamCfg where
  hasRequestId : Bool
  hasIds : Bool
deriving DecidableEq, Repr

/-- `BATCH_SIZE`: yield the batch buffer once it holds 10 characters. -/
def BATCH_SIZE : Nat := 10

/-- `'<think>'`. -/
def openTag : List Char := ("<think>").toList

/-- `'</think>'`. -/
def closeTag : List Char := ("</think>").toList

/-- The `</think>` branch: leave thinking mode, drop the tag, set
`streamedTokens` (the synthetic space is emitted by the caller), store
the trimmed thinking buffer when it is nonempty and both ids are present,
and clear the thinking buffer. -/
def closeThink (cfg : StreamCfg) (st : StState) (rest : List Char) : StState :=
  { st with
    inThinkingTag := false,
    pendingBuffer := rest,
    streamedTokens := true,
    thinkingBuffer := [],
    thoughts := st.thoughts ++
      (if trimChars st.thinkingBuffer ≠ [] ∧ cfg.hasIds = true then
        [String.mk (trimChars st.thinkingBuffer)] else []) }

/-- One thinking-mode character: accumulate it; with a `requestId`, also
yield it as a thinking chunk and mark `streamedThinking`. -/
def thinkChar (cfg : StreamCfg) (st : StState) (ch : Char) (rest : List Char) :
    StState × List StreamEv :=
  ({ st with
      pendingBuffer := rest,
      thinkingBuffer := st.thinkingBuffer ++ [ch],
      streamedThinking := st.streamedThinking || cfg.hasRequestId },
   if cfg.hasRequestId then [StreamEv.thinkingChunk ch] else [])

/-- One content character: skipped when it is `\n`, `\r` or a space and
nothing has streamed yet; otherwise appended to `fullContent` and the
batch buffer, which is yielded once it reaches `BATCH_SIZE`. -/
def contentChar (st : StState) (ch : Char) (rest : List Char) :
    StState × List StreamEv :=
  if st.streamedTokens = false ∧ (ch = '\n' ∨ ch = '\r' ∨ ch = ' ') then
    ({ st with pendingBuffer := rest }, [])
  else
    let st2 := { st with
        pendingBuffer := rest,
        fullContent := st.fullContent ++ [ch],
        streamedTokens := true,
        chunkBuffer := st.chunkBuffer ++ [ch] }
    if BATCH_SIZE ≤ st2.chunkBuffer.length then
      ({ st2 with chunkBuffer := [] }, [StreamEv.chunk (String.mk st2.chunkBuffer)])
    else (st2, [])

/-- One iteration of `while (pendingBuffer.length > 8)`: `none` when the
loop exits, else the successor state and the events that iteration
yields.  Branch order follows the source: open tag (when not in thinking
mode, with the status event gated on `requestId`), close tag (when in
thinking mode, always yielding the single synthetic space), then one
plain character. -/
def procStep (cfg : StreamCfg) (st : StState) : Option (StState × List StreamEv) :=
  if st.pendingBuffer.length ≤ 8 then none
  else if st.inThinkingTag = false ∧ (stripLit openTag st.pendingBuffer).isSome then
    some ({ st with
        inThinkingTag := true,
        pendingBuffer := (stripLit openTag st.pendingBuffer).getD [] },
      if cfg.hasRequestId then [StreamEv.status ("thinking")] else [])
  else if st.inThinkingTag = true ∧ (stripLit closeTag st.pendingBuffer).isSome then
    some (closeThink cfg st ((stripLit closeTag st.pendingBuffer).getD []),
      [StreamEv.space])
  else
    match st.pendingBuffer with
    | [] => none
    | ch :: rest =>
      if st.inThinkingTag then some (thinkChar cfg st ch rest)
      else some (contentChar st ch rest)

/-- The scanning loop, fuelled: one `procStep` per unit of fuel. -/
def procLoop (cfg : StreamCfg) : Nat → StState → StState × List StreamEv
  | 0, st => (st, [])
  | fuel + 1, st =>
    match procStep cfg st with
    | none => (st, [])
    | some (st2, evs) =>
      let r := procLoop cfg fuel st2
      (r.1, evs ++ r.2)

/-- One `on_llm_stream` content chunk from the respond node: append it to
the pending buffer, then scan (the new length bounds the iterations,
since every iteration consumes at least one character). -/
def procEvent (cfg : StreamCfg) (st : StState) (content : String) :
    StState × List StreamEv :=
  let st2 := { st with pendingBuffer := st.pendingBuffer ++ content.toList }
  procLoop cfg st2.pendingBuffer.length st2

/-- One iteration of the end-of-stream flush: identical to character
processing but with no tag checks. -/
def flushStep (cfg : StreamCfg) (st : StState) : Option (StState × List StreamEv) :=
  match st.pendingBuffer with
  | [] => none
  | ch :: rest =>
    if st.inThinkingTag then some (thinkChar cfg st ch rest)
    else some (contentChar st ch rest)

/-- The flush loop `while (pendingBuffer.length > 0)`, fuelled. -/
def flushLoop (cfg : StreamCfg) : Nat → StState → StState × List StreamEv
  | 0, st => (st, [])
  | fuel + 1, st =>
    match flushStep cfg st with
    | none => (st, [])
    | some (st2, evs) =>
      let r := flushLoop cfg fuel st2
      (r.1, evs ++ r.2)

/-- The whole transform of a stream of respond-node content chunks: scan
each chunk, flush the tail of the pending buffer, then flush a nonempty
batch buffer as a final chunk. -/
def runStream (cfg : StreamCfg) (chunks : List String) :
    StState × List StreamEv :=
  let a := chunks.foldl
    (fun acc content =>
      let r := procEvent cfg acc.1 content
      (r.1, acc.2 ++ r.2))
    (initState, [])
  let b := flushLoop cfg a.1.pendingBuffer.length a.1
  let c :=
    if b.1.chunkBuffer = [] then (b.1, ([] : List StreamEv))
    else ({ b.1 with chunkBuffer := [] },
      [StreamEv.chunk (String.mk b.1.chunkBuffer)])
  (c.1, a.2 ++ b.2 ++ c.2)

/-- What the function persists as the message content afterwards:
`store_message`(role assistant) stores `fullContent` when nonempty and
`completeGeneration` records it as the response. -/
def persistedContent (cfg : StreamCfg) (chunks : List String) : String :=
  String.mk (runStream cfg chunks).1.fullContent

/-- The thinking records stored by the close-tag branch, in order. -/
def storedThoughts (cfg : StreamCfg) (chunks : List String) : List String :=
  (runStream cfg chunks).1.thoughts

end Streaming

namespace ConditionEvaluator

/-- A safe expression is non-empty after trimming: every allowlisted
pattern consumes at least one character. -/
theorem anySafePattern_nil : anySafePattern [] = false := by rfl

/-- If an expression passes `isSafeExpression`, its trimmed form is not
empty, so `createConditionFunction` does not take the empty-expression
shortcut. -/
theorem isSafe_trim_ne {expr : String}
    (h : isSafeExpression expr = true) : trimChars expr.toList ≠ [] := by
  intro hnil
  rw [isSafeExpression, hnil, anySafePattern_nil] at h
  simp at h

end ConditionEvaluator

/-- Claim C1 (amended): for every conditional-edge expression containing a
denylist identifier (eval, Function, constructor, __proto__, prototype),
`createConditionFunction` rejects the expression and returns a constant
function: for every state it yields the edge's declared fallback node id,
or `__end__` when none is declared, never consulting the expression
evaluator.  (The claim's stated return value `__fallback__` is what the
code violates; see the counterexample.) -/
theorem C1_unsafe_expression_aborts (expr : String)
    (targets : Option (List (String × String))) (fallback : Option String)
    (st : JVal)
    (h : ConditionEvaluator.hasDangerousKeyword expr = true) :
    ConditionEvaluator.createConditionFunction expr targets fallback st
      = fallback.getD ("__end__") := by
  rw [ConditionEvaluator.createConditionFunction]
  by_cases h0 : trimChars expr.toList = []
  · have h0' : trimChars expr.data = [] := h0
    simp [h0']
  · have hs : ConditionEvaluator.isSafeExpression expr = false := by
      rw [ConditionEvaluator.isSafeExpression]
      rw [ConditionEvaluator.hasDangerousKeyword] at h
      rw [h]
      simp
    have h0' : ¬ trimChars expr.data = [] := h0
    simp [h0', hs]

/-- Witness for C1: the expression `eval` with a declared fallback. -/
theorem C1_unsafe_expression_aborts_witness :
    ConditionEvaluator.hasDangerousKeyword ("eval") = true ∧
    ConditionEvaluator.createConditionFunction ("eval")
      (some [("direct", "respond")]) (some ("planner")) (JVal.obj [])
      = "planner" :=
  ⟨rfl,
    C1_unsafe_expression_aborts ("eval") (some [("direct", "respond")])
      (some ("planner")) (JVal.obj []) rfl⟩

/-- Counterexample for C1 as stated: on the denylisted expression `eval`
with fallback node `planner`, the condition function returns the node id
`planner`, not the reserved key `__fallback__`. -/
theorem C1_counterexample :
    ConditionEvaluator.createConditionFunction ("eval")
      (some [("direct", "respond")]) (some ("planner")) (JVal.obj [])
      = "planner" ∧ ("planner" : String) ≠ "__fallback__" :=
  ⟨rfl, by decide⟩

/-- Claim C5 (amended): for every conditional edge with a safe expression
and a targets map, and every state on which the evaluator yields a result:
if the stringified result equals a key of `targets` the condition function
returns that key; else if it equals a value of `targets` it returns a key
carrying that value; else it returns `__fallback__` when the edge declares
a fallback (which the compiler maps to the fallback node) and `__end__`
otherwise.  (The claim's statement that `__fallback__` is returned even
without a declared fallback is what the code violates; see the
counterexample.) -/
theorem C5_conditional_edge_matching (expr : String)
    (tgs : List (String × String)) (fb : Option String) (st : JVal) (r : JVal)
    (hsafe : ConditionEvaluator.isSafeExpression expr = true)
    (heval : ConditionEvaluator.evaluateExpression expr st = some r) :
    (jsString r ∈ tgs.map Prod.fst →
      ConditionEvaluator.createConditionFunction expr (some tgs) fb st
        = jsString r)
    ∧ (jsString r ∉ tgs.map Prod.fst → (∃ kv ∈ tgs, kv.2 = jsString r) →
      ∃ kv ∈ tgs, kv.2 = jsString r ∧
        ConditionEvaluator.createConditionFunction expr (some tgs) fb st
          = kv.1)
    ∧ (jsString r ∉ tgs.map Prod.fst → (∀ kv ∈ tgs, kv.2 ≠ jsString r) →
      ConditionEvaluator.createConditionFunction expr (some tgs) fb st
        = (if fb.isSome then "__fallback__" else "__end__")) := by
  have htrim : ¬ trimChars expr.data = [] := ConditionEvaluator.isSafe_trim_ne hsafe
  have hred : ConditionEvaluator.createConditionFunction expr (some tgs) fb st
      = (if (tgs.find? (fun p => decide (p.1 = jsString r))).isSome then jsString r
         else
           match tgs.find? (fun p => decide (p.2 = jsString r)) with
           | some kv => kv.1
           | none => if fb.isSome then "__fallback__" else "__end__") := by
    have htrim2 : ¬ trimChars expr.toList = [] := htrim
    rw [ConditionEvaluator.createConditionFunction, if_neg htrim2]
    simp [hsafe, heval]
  refine ⟨?_, ?_, ?_⟩
  · intro hkey
    have hfind : (tgs.find? (fun p => decide (p.1 = jsString r))).isSome := by
      rw [List.find?_isSome]
      rcases List.mem_map.mp hkey with ⟨kv, hmem, hfst⟩
      exact ⟨kv, hmem, by simpa using hfst⟩
    rw [hred, if_pos hfind]
  · intro hkey hval
    have hfind : ¬ (tgs.find? (fun p => decide (p.1 = jsString r))).isSome := by
      rw [List.find?_isSome]
      rintro ⟨kv, hmem, hp⟩
      exact hkey (List.mem_map.mpr ⟨kv, hmem, by simpa using hp⟩)
    rcases hval with ⟨kv0, hmem0, hv0⟩
    have hex : (tgs.find? (fun p => decide (p.2 = jsString r))).isSome := by
      rw [List.find?_isSome]
      exact ⟨kv0, hmem0, by simpa using hv0⟩
    rcases Option.isSome_iff_exists.mp hex with ⟨kv, hkv⟩
    refine ⟨kv, List.mem_of_find?_eq_some hkv, ?_, ?_⟩
    · have := List.find?_some hkv
      simpa using this
    · rw [hred, if_neg hfind, hkv]
  · intro hkey hnone
    have hfind : ¬ (tgs.find? (fun p => decide (p.1 = jsString r))).isSome := by
      rw [List.find?_isSome]
      rintro ⟨kv, hmem, hp⟩
      exact hkey (List.mem_map.mpr ⟨kv, hmem, by simpa using hp⟩)
    have hvnone : tgs.find? (fun p => decide (p.2 = jsString r)) = none := by
      rw [List.find?_eq_none]
      intro kv hmem
      simpa using hnone kv hmem
    rw [hred, if_neg hfind, hvnone]

/-- Witness for C5: the classifier edge of the spec's routing scenario,
with result `plan` matching a target key. -/
theorem C5_conditional_edge_matching_witness :
    ConditionEvaluator.isSafeExpression ("state.data.routeDecision") = true ∧
    ConditionEvaluator.createConditionFunction ("state.data.routeDecision")
      (some [("direct", "respond"), ("plan", "planner")]) (some ("planner"))
      (JVal.obj [("data", JVal.obj [("routeDecision", JVal.str "plan")])])
      = "plan" := by
  refine ⟨rfl, ?_⟩
  have h := (C5_conditional_edge_matching ("state.data.routeDecision")
    [("direct", "respond"), ("plan", "planner")] (some ("planner"))
    (JVal.obj [("data", JVal.obj [("routeDecision", JVal.str "plan")])])
    (JVal.str "plan") rfl rfl).1
  exact h (by decide)

/-- Counterexample for C5 as stated: a safe expression whose result
`maybe` matches neither a key nor a value of `targets`, on an edge with no
declared fallback, makes the condition function return `__end__` directly,
not the reserved `__fallback__`. -/
theorem C5_counterexample :
    ConditionEvaluator.isSafeExpression ("state.data.routeDecision") = true ∧
    ConditionEvaluator.createConditionFunction ("state.data.routeDecision")
      (some [("direct", "respond"), ("plan", "planner")]) none
      (JVal.obj [("data", JVal.obj [("routeDecision", JVal.str "maybe")])])
      = "__end__" ∧ ("__end__" : String) ≠ "__fallback__" :=
  ⟨rfl, rfl, by decide⟩

/-- Every element kept by `takeWhile` satisfies the predicate. -/
theorem takeWhile_all {α} (q : α → Bool) (l : List α) :
    (l.takeWhile q).all q = true := by
  rw [List.all_eq_true]
  intro a ha
  exact List.mem_takeWhile_imp ha

/-- `takeWhile` keeps a list all of whose elements satisfy the predicate. -/
theorem takeWhile_all_self {α} {q : α → Bool} :
    ∀ {w : List α}, w.all q = true → w.takeWhile q = w := by
  intro w
  induction w with
  | nil => intro _; rfl
  | cons a as ih =>
    intro h
    rw [List.all_cons] at h
    rcases Bool.and_eq_true_iff.mp h with ⟨ha, has⟩
    rw [List.takeWhile_cons, ha, ih has]
    simp

/-- `dropWhile` drops a list all of whose elements satisfy the predicate. -/
theorem dropWhile_all_nil {α} {q : α → Bool} :
    ∀ {w : List α}, w.all q = true → w.dropWhile q = [] := by
  intro w
  induction w with
  | nil => intro _; rfl
  | cons a as ih =>
    intro h
    rw [List.all_cons] at h
    rcases Bool.and_eq_true_iff.mp h with ⟨ha, has⟩
    rw [List.dropWhile_cons, ha, ih has]
    simp

/-- `takeWhile` on an all-good block followed by a stopped tail. -/
theorem takeWhile_append_stop {α} {q : α → Bool} {w s : List α}
    (hw : w.all q = true) (hs : s.takeWhile q = []) :
    (w ++ s).takeWhile q = w := by
  rw [List.takeWhile_append, takeWhile_all_self hw, if_pos rfl, hs, List.append_nil]

/-- `dropWhile` on an all-good block followed by a stopped tail. -/
theorem dropWhile_append_stop {α} {q : α → Bool} {w s : List α}
    (hw : w.all q = true) (hs : s.dropWhile q = s) :
    (w ++ s).dropWhile q = s := by
  rw [List.dropWhile_append, dropWhile_all_nil hw]
  simp [hs]

/-- Heads of a dot-led tail. -/
theorem head_dot_shape {r : List Char} (hh : r.head? = some '.') :
    r = '.' :: r.tail := by
  cases r with
  | nil => simp at hh
  | cons c r2 => simp at hh; rw [hh]; rfl

/-- A successful `parsePathF` consumes exactly the returned path, which is
non-empty. -/
theorem parsePathF_append :
    ∀ {fuel : Nat} {l p rest : List Char},
      parsePathF fuel l = some (p, rest) → p ++ rest = l ∧ p ≠ [] := by
  intro fuel
  induction fuel with
  | zero => intro l p rest h; simp [parsePathF] at h
  | succ f ih =>
    intro l p rest h
    rw [parsePathF] at h
    by_cases hw : (l.takeWhile isWordChar).isEmpty
    · simp [hw] at h
    · simp only [hw, Bool.false_eq_true, if_false] at h
      have hwne : l.takeWhile isWordChar ≠ [] := by
        intro hx; rw [hx] at hw; simp at hw
      have hsplit := List.takeWhile_append_dropWhile (p := isWordChar) (l := l)
      by_cases hh : (l.dropWhile isWordChar).head? = some '.'
      · rw [if_pos hh] at h
        cases hrec : parsePathF f (l.dropWhile isWordChar).tail with
        | some pr =>
          rw [hrec, Option.map_some', Option.getD_some] at h
          simp only [Option.some.injEq, Prod.mk.injEq] at h
          rcases h with ⟨hp, hrest⟩
          rcases ih hrec with ⟨hap, _⟩
          subst hp; subst hrest
          refine ⟨?_, by simp⟩
          rw [List.append_assoc]
          simp only [List.cons_append]
          rw [hap]
          rw [← head_dot_shape hh]
          exact hsplit
        | none =>
          rw [hrec, Option.map_none', Option.getD_none] at h
          simp only [Option.some.injEq, Prod.mk.injEq] at h
          rcases h with ⟨hp, hrest⟩
          subst hp; subst hrest
          exact ⟨hsplit, hwne⟩
      · rw [if_neg hh] at h
        simp only [Option.some.injEq, Prod.mk.injEq] at h
        rcases h with ⟨hp, hrest⟩
        subst hp; subst hrest
        exact ⟨hsplit, hwne⟩

/-- With the word block non-empty, the tail after it is shorter than the
input. -/
theorem dropWhile_tail_lt {l : List Char}
    (hw : ¬ (l.takeWhile isWordChar).isEmpty = true) :
    (l.dropWhile isWordChar).tail.length + 1 ≤ l.length := by
  have hsum := congrArg List.length
    (List.takeWhile_append_dropWhile (p := isWordChar) (l := l))
  rw [List.length_append] at hsum
  have hpos : 0 < (l.takeWhile isWordChar).length := by
    cases hx : l.takeWhile isWordChar with
    | nil => rw [hx] at hw; simp at hw
    | cons a as => simp [hx]
  have htail : (l.dropWhile isWordChar).tail.length
      ≤ (l.dropWhile isWordChar).length := by
    cases l.dropWhile isWordChar <;> simp
  omega

/-- Any two sufficient fuels compute the same path parse. -/
theorem parsePathF_fuel :
    ∀ (f1 : Nat) (l : List Char) (f2 : Nat),
      l.length < f1 → l.length < f2 → parsePathF f1 l = parsePathF f2 l := by
  intro f1
  induction f1 with
  | zero => intro l f2 h1 _; omega
  | succ g1 ih =>
    intro l f2 h1 h2
    cases f2 with
    | zero => omega
    | succ g2 =>
      rw [parsePathF, parsePathF]
      by_cases hw : (l.takeWhile isWordChar).isEmpty
      · simp [hw]
      · simp only [hw, Bool.false_eq_true, if_false]
        by_cases hh : (l.dropWhile isWordChar).head? = some '.'
        · rw [if_pos hh, if_pos hh]
          have hlt := dropWhile_tail_lt (l := l) hw
          rw [ih (l.dropWhile isWordChar).tail g2 (by omega) (by omega)]
        · rw [if_neg hh, if_neg hh]

/-- A whole-input path parse extends along a suffix that can neither extend
the last word block nor begin a new dot segment. -/
theorem parsePathF_extend :
    ∀ {fuel : Nat} {p s : List Char},
      parsePathF fuel p = some (p, []) →
      s.takeWhile isWordChar = [] → s.dropWhile isWordChar = s →
      s.head? ≠ some '.' →
      parsePathF fuel (p ++ s) = some (p, s) := by
  intro fuel
  induction fuel with
  | zero => intro p s h _ _ _; simp [parsePathF] at h
  | succ f ih =>
    intro p s h hstop1 hstop2 hdot
    rw [parsePathF] at h
    by_cases hw : (p.takeWhile isWordChar).isEmpty
    · simp [hw] at h
    · simp only [hw, Bool.false_eq_true, if_false] at h
      have hall : (p.takeWhile isWordChar).all isWordChar = true :=
        takeWhile_all _ _
      by_cases hh : (p.dropWhile isWordChar).head? = some '.'
      · rw [if_pos hh] at h
        cases hrec : parsePathF f (p.dropWhile isWordChar).tail with
        | some pr =>
          rcases pr with ⟨p2, rest2⟩
          rw [hrec, Option.map_some', Option.getD_some] at h
          simp only [Option.some.injEq, Prod.mk.injEq] at h
          rcases h with ⟨hp, hrest⟩
          subst hrest
          rcases parsePathF_append hrec with ⟨hap, _⟩
          rw [List.append_nil] at hap
          have hrec2 : parsePathF f (p.dropWhile isWordChar).tail
              = some ((p.dropWhile isWordChar).tail, []) := by
            rw [hrec, hap]
          have hih := ih hrec2 hstop1 hstop2 hdot
          -- decompose `p ++ s`
          have hshape := head_dot_shape hh
          have hps : p ++ s = p.takeWhile isWordChar
              ++ ('.' :: ((p.dropWhile isWordChar).tail ++ s)) := by
            conv_lhs =>
              rw [← List.takeWhile_append_dropWhile (p := isWordChar) (l := p)]
            rw [List.append_assoc]
            rw [hshape]
            simp
          rw [parsePathF, hps]
          have hdw' : isWordChar '.' = false := by decide
          have htw : ((p.takeWhile isWordChar)
              ++ ('.' :: ((p.dropWhile isWordChar).tail ++ s))).takeWhile isWordChar
              = p.takeWhile isWordChar := by
            apply takeWhile_append_stop hall
            simp [List.takeWhile_cons, hdw']
          have hdw : ((p.takeWhile isWordChar)
              ++ ('.' :: ((p.dropWhile isWordChar).tail ++ s))).dropWhile isWordChar
              = '.' :: ((p.dropWhile isWordChar).tail ++ s) := by
            apply dropWhile_append_stop hall
            simp [List.dropWhile_cons, hdw']
          simp only [htw, hdw]
          simp only [hw, Bool.false_eq_true, if_false]
          simp only [List.head?_cons, Option.some.injEq, if_pos rfl]
          simp only [List.tail_cons]
          rw [hih, Option.map_some', Option.getD_some]
          have hfin : p.takeWhile isWordChar
              ++ '.' :: (p.dropWhile isWordChar).tail = p := by
            conv_rhs =>
              rw [← List.takeWhile_append_dropWhile (p := isWordChar) (l := p)]
            rw [hshape]
            simp
          simp only [if_true]
          show some (p.takeWhile isWordChar
            ++ '.' :: (p.dropWhile isWordChar).tail, s) = some (p, s)
          rw [hfin]
        | none =>
          rw [hrec, Option.map_none', Option.getD_none] at h
          simp only [Option.some.injEq, Prod.mk.injEq] at h
          rcases h with ⟨_, hrest⟩
          rw [head_dot_shape hh] at hrest
          cases hrest
      · rw [if_neg hh] at h
        simp only [Option.some.injEq, Prod.mk.injEq] at h
        rcases h with ⟨hp, hrest⟩
        -- `p` is a single word block: `dropWhile = []`
        have hdnil : p.dropWhile isWordChar = [] := hrest
        have hpw : p.takeWhile isWordChar = p := by
          conv_rhs =>
            rw [← List.takeWhile_append_dropWhile (p := isWordChar) (l := p)]
          rw [hdnil, List.append_nil]
        rw [parsePathF]
        have htw : (p ++ s).takeWhile isWordChar = p := by
          have := takeWhile_append_stop (q := isWordChar) (w := p) (s := s)
            (by rw [← hpw]; exact hall) hstop1
          exact this
        have hdw : (p ++ s).dropWhile isWordChar = s :=
          dropWhile_append_stop (by rw [← hpw]; exact hall) hstop2
        simp only [htw, hdw]
        have hwne2 : ¬ (p : List Char).isEmpty = true := by
          rw [← hpw]; exact hw
        simp only [hwne2, Bool.false_eq_true, if_false]
        rw [if_neg hdot]

/-- A successful literal strip decomposes the input. -/
theorem stripLit_some {lit l r : List Char} (h : stripLit lit l = some r) :
    l = lit ++ r := by
  rw [stripLit] at h
  split at h
  · rename_i htake
    simp only [Option.some.injEq] at h
    subst h
    conv_lhs => rw [← List.take_append_drop lit.length l]
    rw [htake]
  · cases h

/-- Stripping a literal off itself plus a tail. -/
theorem stripLit_append (lit x : List Char) : stripLit lit (lit ++ x) = some x := by
  rw [stripLit]
  rw [List.take_left, List.drop_left]
  simp

/-- A matched placeholder decomposes the input and carries a non-empty
path. -/
theorem tryPlaceholder_some {l p after : List Char}
    (h : TemplateRenderer.tryPlaceholder l = some (p, after)) :
    l = TemplateRenderer.phOpen ++ p ++ TemplateRenderer.phClose ++ after
      ∧ p ≠ [] := by
  rw [TemplateRenderer.tryPlaceholder] at h
  cases h1 : stripLit TemplateRenderer.phOpen l with
  | none => rw [h1] at h; cases h
  | some r =>
    rw [h1] at h
    simp only [Option.bind_eq_bind, Option.some_bind] at h
    cases h2 : parsePath r with
    | none => rw [h2] at h; cases h
    | some pr =>
      rcases pr with ⟨p1, r2⟩
      rw [h2] at h
      simp only [Option.some_bind] at h
      cases h3 : stripLit TemplateRenderer.phClose r2 with
      | none => rw [h3] at h; cases h
      | some r3 =>
        rw [h3] at h
        simp only [Option.some_bind, Option.some.injEq, Prod.mk.injEq] at h
        rcases h with ⟨hp, hafter⟩
        subst hp; subst hafter
        rcases parsePathF_append h2 with ⟨hpr, hpne⟩
        refine ⟨?_, hpne⟩
        rw [stripLit_some h1, stripLit_some h3] at *
        rw [← hpr]
        simp [List.append_assoc]

/-- The placeholder matcher on a well-formed placeholder followed by
arbitrary text. -/
theorem tryPlaceholder_front {p : List Char} (rest : List Char)
    (hp : parsePath p = some (p, [])) :
    TemplateRenderer.tryPlaceholder
        (TemplateRenderer.phOpen ++ p ++ TemplateRenderer.phClose ++ rest)
      = some (p, rest) := by
  rw [TemplateRenderer.tryPlaceholder]
  have hshape : TemplateRenderer.phOpen ++ p ++ TemplateRenderer.phClose ++ rest
      = TemplateRenderer.phOpen ++ (p ++ (TemplateRenderer.phClose ++ rest)) := by
    simp [List.append_assoc]
  rw [hshape, stripLit_append]
  simp only [Option.bind_eq_bind, Option.some_bind]
  have hparse : parsePath (p ++ (TemplateRenderer.phClose ++ rest))
      = some (p, TemplateRenderer.phClose ++ rest) := by
    rw [parsePath]
    have hfa : parsePathF ((p ++ (TemplateRenderer.phClose ++ rest)).length + 1) p
        = some (p, []) := by
      rw [parsePath] at hp
      rw [← parsePathF_fuel (p.length + 1)
        p ((p ++ (TemplateRenderer.phClose ++ rest)).length + 1)
        (by omega) (by simp; omega)]
      exact hp
    apply parsePathF_extend hfa
    · rfl
    · rfl
    · simp [TemplateRenderer.phClose]
  rw [hparse]
  simp only [Option.some_bind]
  rw [stripLit_append]
  simp

/-- One scan step across a matched placeholder. -/
theorem renderScanF_step {st : JVal} {l p after : List Char} {fuel : Nat}
    (h : TemplateRenderer.tryPlaceholder l = some (p, after)) (hl : 0 < fuel) :
    TemplateRenderer.renderScanF fuel st l
      = TemplateRenderer.renderValue st p
        ++ TemplateRenderer.renderScanF (fuel - 1) st after := by
  cases fuel with
  | zero => omega
  | succ g =>
    cases l with
    | nil =>
      rw [TemplateRenderer.tryPlaceholder] at h
      cases h
    | cons c rest =>
      rw [TemplateRenderer.renderScanF, h]
      rfl

/-- One scan step across an unmatched character. -/
theorem renderScanF_step_none {st : JVal} {c : Char} {rest : List Char}
    {fuel : Nat} (h : TemplateRenderer.tryPlaceholder (c :: rest) = none)
    (hl : 0 < fuel) :
    TemplateRenderer.renderScanF fuel st (c :: rest)
      = c :: TemplateRenderer.renderScanF (fuel - 1) st rest := by
  cases fuel with
  | zero => omega
  | succ g =>
    rw [TemplateRenderer.renderScanF, h]
    rfl

/-- Any two sufficient fuels compute the same scan. -/
theorem renderScanF_fuel {st : JVal} :
    ∀ (f1 : Nat) (l : List Char) (f2 : Nat),
      l.length < f1 → l.length < f2 →
      TemplateRenderer.renderScanF f1 st l = TemplateRenderer.renderScanF f2 st l := by
  intro f1
  induction f1 with
  | zero => intro l f2 h1 _; omega
  | succ g1 ih =>
    intro l f2 h1 h2
    cases f2 with
    | zero => omega
    | succ g2 =>
      cases l with
      | nil => rw [TemplateRenderer.renderScanF, TemplateRenderer.renderScanF]
      | cons c rest =>
        cases htry : TemplateRenderer.tryPlaceholder (c :: rest) with
        | some pr =>
          rcases pr with ⟨p, after⟩
          rcases tryPlaceholder_some htry with ⟨hshape, _⟩
          have hlen : after.length + 10 ≤ (c :: rest).length := by
            rw [hshape]
            simp [TemplateRenderer.phOpen, TemplateRenderer.phClose]
          simp only [List.length_cons] at h1 h2 hlen
          rw [renderScanF_step htry (show 0 < g1 + 1 by omega),
            renderScanF_step htry (show 0 < g2 + 1 by omega)]
          simp only [Nat.add_sub_cancel]
          rw [ih after g2 (by omega) (by omega)]
        | none =>
          simp only [List.length_cons] at h1 h2
          rw [renderScanF_step_none htry (show 0 < g1 + 1 by omega),
            renderScanF_step_none htry (show 0 < g2 + 1 by omega)]
          simp only [Nat.add_sub_cancel]
          rw [ih rest g2 (by omega) (by omega)]

/-- Claim C6 (amended): for every state, `renderTemplate` substitutes each
occurrence of `\x7b\x7bstate.<path>\x7d\x7d` and continues scanning after it; the value
at the direct path is JSON-encoded when it is a non-null object and
string-coerced otherwise; a path unresolved at the direct location falls
back to `data.<path>`, whose value is coerced with `String()` (so objects
become `[object Object]`, not JSON — see the counterexample); a path
unresolved after the fallback leaves the literal placeholder in the output
(a warning is logged in the source); the function is total, so rendering
never throws on unresolved placeholders. -/
theorem C6_renderTemplate_spec (st : JVal) (p rest : List Char)
    (hp : parsePath p = some (p, [])) :
    (TemplateRenderer.renderTemplate
        (String.mk (TemplateRenderer.phOpen ++ p ++ TemplateRenderer.phClose ++ rest)) st
      = String.mk (TemplateRenderer.renderValue st p)
        ++ TemplateRenderer.renderTemplate (String.mk rest) st)
    ∧ (∀ fs, TemplateRenderer.getNestedProperty st (String.mk p) = JVal.obj fs →
        String.mk (TemplateRenderer.renderValue st p)
          = (jsonStringify (JVal.obj fs)).getD "")
    ∧ (TemplateRenderer.getNestedProperty st (String.mk p) = JVal.undef →
        ¬ p.take 5 = ("data.").toList →
        ∀ dv, TemplateRenderer.getNestedProperty st
            (String.mk (("data.").toList ++ p)) = dv →
          dv ≠ JVal.undef →
          String.mk (TemplateRenderer.renderValue st p) = jsString dv)
    ∧ (TemplateRenderer.getNestedProperty st (String.mk p) = JVal.undef →
        ¬ p.take 5 = ("data.").toList →
        TemplateRenderer.getNestedProperty st
            (String.mk (("data.").toList ++ p)) = JVal.undef →
        String.mk (TemplateRenderer.renderValue st p)
          = String.mk (TemplateRenderer.phOpen ++ p ++ TemplateRenderer.phClose)) := by
  refine ⟨?_, ?_, ?_, ?_⟩
  · show String.mk (TemplateRenderer.renderScanF
        ((TemplateRenderer.phOpen ++ p ++ TemplateRenderer.phClose ++ rest).length + 1) st
        (TemplateRenderer.phOpen ++ p ++ TemplateRenderer.phClose ++ rest))
      = String.mk (TemplateRenderer.renderValue st p
          ++ TemplateRenderer.renderScanF (rest.length + 1) st rest)
    rw [renderScanF_step (tryPlaceholder_front rest hp) (by omega)]
    congr 2
    apply renderScanF_fuel
    · simp [TemplateRenderer.phOpen, TemplateRenderer.phClose, List.length_append]
      omega
    · omega
  · intro fs h
    simp [TemplateRenderer.renderValue, h]
  · intro h hdata dv hdv hne
    cases dv <;> simp_all [TemplateRenderer.renderValue, jsString]
  · intro h hdata hdv
    have hdata2 : ¬ List.take 5 p = ['d', 'a', 't', 'a', '.'] := hdata
    have hdv2 : TemplateRenderer.getNestedProperty st
        (String.mk ('d' :: 'a' :: 't' :: 'a' :: '.' :: p)) = JVal.undef := hdv
    simp [TemplateRenderer.renderValue, h, hdata2, hdv2]

/-- Witness for C6: a resolved nested path with trailing text. -/
theorem C6_renderTemplate_spec_witness :
    TemplateRenderer.renderTemplate ("Hello \x7b\x7bstate.user.name\x7d\x7d!")
      (JVal.obj [("user", JVal.obj [("name", JVal.str "Alice")])])
      = "Hello Alice!" := by
  have h := (C6_renderTemplate_spec
    (JVal.obj [("user", JVal.obj [("name", JVal.str "Alice")])])
    (("user.name").toList) (("!").toList) (by rfl)).1
  calc TemplateRenderer.renderTemplate ("Hello \x7b\x7bstate.user.name\x7d\x7d!")
        (JVal.obj [("user", JVal.obj [("name", JVal.str "Alice")])])
      = "Hello " ++ TemplateRenderer.renderTemplate
        (String.mk (TemplateRenderer.phOpen ++ ("user.name").toList
          ++ TemplateRenderer.phClose ++ ("!").toList))
        (JVal.obj [("user", JVal.obj [("name", JVal.str "Alice")])]) := by rfl
    _ = "Hello " ++ (String.mk (TemplateRenderer.renderValue
          (JVal.obj [("user", JVal.obj [("name", JVal.str "Alice")])])
          (("user.name").toList))
        ++ TemplateRenderer.renderTemplate (String.mk (("!").toList))
          (JVal.obj [("user", JVal.obj [("name", JVal.str "Alice")])])) := by rw [h]
    _ = "Hello Alice!" := by rfl

/-- Counterexample for C6 as stated: an object reached only through the
`data.` fallback is coerced with `String()` to `[object Object]`, not to
its JSON text. -/
theorem C6_counterexample :
    TemplateRenderer.renderTemplate ("\x7b\x7bstate.x\x7d\x7d")
      (JVal.obj [("data", JVal.obj [("x", JVal.obj [("a", JVal.int 1)])])])
      = "[object Object]"
    ∧ jsonStringify (JVal.obj [("a", JVal.int 1)]) = some ("\x7b\"a\":1\x7d")
    ∧ ("[object Object]" : String) ≠ "\x7b\"a\":1\x7d" :=
  ⟨rfl, rfl, by decide⟩

/-- Claim C2 (amended): step guards do NOT use the restricted safe-expression
grammar.  A condition wrapped in double braces is evaluated as arbitrary
JavaScript via `new Function` (modelled by the `jsEval` parameter), with the
result coerced to boolean and any throw treated as `false`; a condition not
wrapped in double braces is always treated as `false`; in either case a
falsy or malformed condition makes `executeStep` skip the step and return
an empty delta.  (The counterexample shows a condition the restricted
grammar accepts as true that the step guard nevertheless evaluates to
`false`.) -/
theorem C2_step_condition_guard :
    (∀ (jsEval : String → JVal → Option JVal) (c : String) (st : JVal),
      ¬ StepExecutor.isBracedCondition c = true →
      StepExecutor.evaluateStepCondition jsEval c st = false)
    ∧ (∀ (jsEval : String → JVal → Option JVal) (c : String) (st : JVal),
      StepExecutor.isBracedCondition c = true →
      jsEval (StepExecutor.stepConditionExpr c) st = none →
      StepExecutor.evaluateStepCondition jsEval c st = false)
    ∧ (∀ (jsEval : String → JVal → Option JVal) (c : String) (st : JVal) (v : JVal),
      StepExecutor.isBracedCondition c = true →
      jsEval (StepExecutor.stepConditionExpr c) st = some v →
      StepExecutor.evaluateStepCondition jsEval c st = jsTruthy v)
    ∧ (∀ (jsEval : String → JVal → Option JVal)
        (execs : StepExecutor.StepType → JVal → JVal → Except String (List (String × JVal)))
        (ty : StepExecutor.StepType) (cfg : JVal) (c : String) (st : JVal),
      c ≠ "" →
      StepExecutor.evaluateStepCondition jsEval c st = false →
      StepExecutor.executeStep jsEval execs ⟨ty, cfg, some c⟩ st = Except.ok []) := by
  refine ⟨?_, ?_, ?_, ?_⟩
  · intro jsEval c st h
    rw [StepExecutor.evaluateStepCondition, if_neg h]
  · intro jsEval c st h hnone
    rw [StepExecutor.evaluateStepCondition, if_pos h, hnone]
  · intro jsEval c st v h hsome
    rw [StepExecutor.evaluateStepCondition, if_pos h, hsome]
  · intro jsEval execs ty cfg c st hc hfalse
    rw [StepExecutor.executeStep]
    simp only [if_pos hc, hfalse]
    simp

/-- Witness for C2: a plain (unbraced) condition skips the step even when
the state satisfies it. -/
theorem C2_step_condition_guard_witness :
    StepExecutor.evaluateStepCondition
      (fun e st => ConditionEvaluator.evaluateExpression e st) ("state.flag")
      (JVal.obj [("flag", JVal.bool true)]) = false
    ∧ StepExecutor.executeStep
      (fun e st => ConditionEvaluator.evaluateExpression e st)
      (fun _ _ _ => Except.ok [("x", JVal.int 1)])
      ⟨StepExecutor.StepType.transform, JVal.obj [], some ("state.flag")⟩
      (JVal.obj [("flag", JVal.bool true)]) = Except.ok [] := by
  refine ⟨?_, ?_⟩
  · exact C2_step_condition_guard.1 _ _ _ (by decide)
  · exact C2_step_condition_guard.2.2.2 _ _ _ _ _ _ (by decide)
      (C2_step_condition_guard.1 _ _ _ (by decide))

/-- Counterexample for C2 as stated: the condition `state.flag` with
`state.flag = true` evaluates to true under the restricted safe-expression
grammar, yet the step guard returns false (the guard only ever runs
brace-wrapped conditions, and runs them through `new Function`, not the
restricted evaluator), so the step is skipped. -/
theorem C2_counterexample :
    ConditionEvaluator.evaluateExpression ("state.flag")
      (JVal.obj [("flag", JVal.bool true)]) = some (JVal.bool true)
    ∧ jsTruthy (JVal.bool true) = true
    ∧ StepExecutor.evaluateStepCondition
      (fun e st => ConditionEvaluator.evaluateExpression e st) ("state.flag")
      (JVal.obj [("flag", JVal.bool true)]) = false
    ∧ StepExecutor.executeStep
      (fun e st => ConditionEvaluator.evaluateExpression e st)
      (fun _ _ _ => Except.ok [("ran", JVal.bool true)])
      ⟨StepExecutor.StepType.transform, JVal.obj [], some ("state.flag")⟩
      (JVal.obj [("flag", JVal.bool true)]) = Except.ok [] :=
  ⟨rfl, rfl, rfl, rfl⟩

/-- Unfolding lookup over a cons cell. -/
theorem lookupField_cons (k1 : String) (v1 : JVal)
    (rest : List (String × JVal)) (k : String) :
    lookupField ((k1, v1) :: rest) k
      = if k1 = k then some v1 else lookupField rest k := by
  rw [lookupField, List.find?_cons]
  by_cases h : k1 = k
  · simp [h]
  · simp [h, lookupField]

/-- Looking up the key just assigned yields the assigned value. -/
theorem assignField_lookup (l : List (String × JVal)) (k : String) (v : JVal) :
    lookupField (UniversalNode.assignField l k v) k = some v := by
  induction l with
  | nil => simp [UniversalNode.assignField, lookupField_cons]
  | cons kv rest ih =>
    rcases kv with ⟨k1, v1⟩
    rw [UniversalNode.assignField]
    by_cases h : k1 = k
    · simp [h, lookupField_cons]
    · rw [if_neg h, lookupField_cons, if_neg h]
      exact ih

/-- Assigning one key leaves other keys' lookups unchanged. -/
theorem assignField_lookup_ne (l : List (String × JVal)) (k k2 : String)
    (v : JVal) (h : k2 ≠ k) :
    lookupField (UniversalNode.assignField l k v) k2 = lookupField l k2 := by
  induction l with
  | nil =>
    show lookupField [(k, v)] k2 = lookupField [] k2
    rw [lookupField_cons, if_neg (fun hx => h hx.symm)]
  | cons kv rest ih =>
    rcases kv with ⟨k1, v1⟩
    rw [UniversalNode.assignField]
    by_cases h1 : k1 = k
    · subst h1
      rw [if_pos rfl, lookupField_cons, lookupField_cons,
        if_neg (fun hx => h hx.symm), if_neg (fun hx => h hx.symm)]
    · rw [if_neg h1, lookupField_cons, lookupField_cons]
      by_cases h2 : k1 = k2
      · simp [h2]
      · rw [if_neg h2, if_neg h2]
        exact ih

/-- The step loop agrees with its failure mirror: a detected first failure
produces exactly the error delta. -/
theorem runStepsGo_firstFailure
    (exec : StepExecutor.UniversalStep → JVal → Except String (List (String × JVal)))
    (state : JVal) :
    ∀ (steps : List StepExecutor.UniversalStep) (k : Nat)
      (updates : List (String × JVal)) (j : Nat) (ty : StepExecutor.StepType)
      (e : String) (upd : List (String × JVal)),
      UniversalNode.firstFailure exec state k updates steps = some (j, ty, e, upd) →
      UniversalNode.runStepsGo exec state k updates steps
        = UniversalNode.errorDelta j ty e upd := by
  intro steps
  induction steps with
  | nil => intro k updates j ty e upd h; simp [UniversalNode.firstFailure] at h
  | cons s rest ih =>
    intro k updates j ty e upd h
    rw [UniversalNode.firstFailure] at h
    rw [UniversalNode.runStepsGo]
    cases hexec : exec s (UniversalNode.deepMergeObjects state
        (JVal.obj (UniversalNode.convertFlatToNested updates))) with
    | ok d =>
      rw [hexec] at h
      exact ih (k + 1) (UniversalNode.assignAll updates d) j ty e upd h
    | error e2 =>
      rw [hexec] at h
      simp only [Option.some.injEq, Prod.mk.injEq] at h
      rcases h with ⟨hj, hty, he, hupd⟩
      subst hj; subst hty; subst he; subst hupd
      rfl

/-- Claim C3 (amended): for every universal-node execution in which some
step raises an exception, the node does not re-raise (the step loop is a
total function): it returns the updates accumulated from the steps that
completed before the failure, with `data.error` set to
`Step <k> (<type>) failed: <message>` (carrying the step's error message)
and `data.nextGraph` — not `data.nextRoute` — set to `error_handler`.  (The
field name `nextGraph` instead of the claim's `nextRoute` is the
counterexample's subject.) -/
theorem C3_universal_node_error_delta
    (exec : StepExecutor.UniversalStep → JVal → Except String (List (String × JVal)))
    (steps : List StepExecutor.UniversalStep) (st : JVal)
    (k : Nat) (ty : StepExecutor.StepType) (e : String)
    (upd : List (String × JVal))
    (h : UniversalNode.firstFailure exec st 1
      [("nodeCounter", JVal.num ((UniversalNode.nodeCounterOf st).addInt 1))] steps
      = some (k, ty, e, upd)) :
    UniversalNode.universalNodeSteps exec steps st
      = UniversalNode.errorDelta k ty e upd
    ∧ UniversalNode.lookupPath (UniversalNode.universalNodeSteps exec steps st)
        ["data", "nextGraph"] = some (JVal.str "error_handler")
    ∧ UniversalNode.lookupPath (UniversalNode.universalNodeSteps exec steps st)
        ["data", "error"]
        = some (JVal.str (UniversalNode.stepErrorMessage k ty e)) := by
  have hrun : UniversalNode.universalNodeSteps exec steps st
      = UniversalNode.errorDelta k ty e upd := by
    rw [UniversalNode.universalNodeSteps]
    exact runStepsGo_firstFailure exec st steps 1 _ k ty e upd h
  refine ⟨hrun, ?_, ?_⟩
  · rw [hrun]
    simp only [UniversalNode.errorDelta, UniversalNode.lookupPath,
      assignField_lookup]
  · rw [hrun]
    simp only [UniversalNode.errorDelta, UniversalNode.lookupPath,
      assignField_lookup]
    rw [assignField_lookup_ne _ _ _ _ (by decide), assignField_lookup]

/-- Witness for C3: a transform step succeeds, then a tool step throws. -/
theorem C3_universal_node_error_delta_witness :
    UniversalNode.universalNodeSteps
      (fun s _ => match s.type with
        | StepExecutor.StepType.transform => Except.ok [("data.x", JVal.int 1)]
        | _ => Except.error ("boom"))
      [⟨StepExecutor.StepType.transform, JVal.obj [], none⟩,
       ⟨StepExecutor.StepType.tool, JVal.obj [], none⟩]
      (JVal.obj [])
      = UniversalNode.errorDelta 2 StepExecutor.StepType.tool ("boom")
        [("nodeCounter", JVal.num (JNum.ofInt 2)), ("data.x", JVal.int 1)] :=
  (C3_universal_node_error_delta
    (fun s _ => match s.type with
      | StepExecutor.StepType.transform => Except.ok [("data.x", JVal.int 1)]
      | _ => Except.error ("boom"))
    [⟨StepExecutor.StepType.transform, JVal.obj [], none⟩,
     ⟨StepExecutor.StepType.tool, JVal.obj [], none⟩]
    (JVal.obj []) 2 StepExecutor.StepType.tool ("boom")
    [("nodeCounter", JVal.num (JNum.ofInt 2)), ("data.x", JVal.int 1)]
    (by rfl)).1

/-- Counterexample for C3 as stated: on a step exception the returned delta
routes through `data.nextGraph`, while `data.nextRoute` — the field the
claim names — is absent; the error message is also decorated with the step
number and kind, and the completed steps' updates are preserved. -/
theorem C3_counterexample :
    UniversalNode.lookupPath
      (UniversalNode.universalNodeSteps
        (fun s _ => match s.type with
          | StepExecutor.StepType.transform => Except.ok [("data.x", JVal.int 1)]
          | _ => Except.error ("boom"))
        [⟨StepExecutor.StepType.transform, JVal.obj [], none⟩,
         ⟨StepExecutor.StepType.tool, JVal.obj [], none⟩]
        (JVal.obj [])) ["data", "nextRoute"] = none
    ∧ UniversalNode.lookupPath
      (UniversalNode.universalNodeSteps
        (fun s _ => match s.type with
          | StepExecutor.StepType.transform => Except.ok [("data.x", JVal.int 1)]
          | _ => Except.error ("boom"))
        [⟨StepExecutor.StepType.transform, JVal.obj [], none⟩,
         ⟨StepExecutor.StepType.tool, JVal.obj [], none⟩]
        (JVal.obj [])) ["data", "nextGraph"] = some (JVal.str "error_handler")
    ∧ UniversalNode.lookupPath
      (UniversalNode.universalNodeSteps
        (fun s _ => match s.type with
          | StepExecutor.StepType.transform => Except.ok [("data.x", JVal.int 1)]
          | _ => Except.error ("boom"))
        [⟨StepExecutor.StepType.transform, JVal.obj [], none⟩,
         ⟨StepExecutor.StepType.tool, JVal.obj [], none⟩]
        (JVal.obj [])) ["data", "error"]
      = some (JVal.str "Step 2 (tool) failed: boom")
    ∧ UniversalNode.lookupPath
      (UniversalNode.universalNodeSteps
        (fun s _ => match s.type with
          | StepExecutor.StepType.transform => Except.ok [("data.x", JVal.int 1)]
          | _ => Except.error ("boom"))
        [⟨StepExecutor.StepType.transform, JVal.obj [], none⟩,
         ⟨StepExecutor.StepType.tool, JVal.obj [], none⟩]
        (JVal.obj [])) ["data", "x"] = some (JVal.int 1) :=
  ⟨rfl, rfl, rfl, rfl⟩

namespace Compiler

end Compiler


/-- Claim C8 (code bug): the routing half of the claim holds — the first
child whose tools list contains the name handles the call, and a name on
no child's list raises `Tool not found: <name>` with no request issued —
but the issued `tools/call` request never carries the caller's `meta`:
the pool drops its `meta` parameter when invoking
`client.callTool(toolName, args)`, and the client's `callTool` takes no
meta parameter and sends only `{name, arguments}`, so `_meta` is `none`
for every provided `meta`. -/
theorem C8_callTool_routing_and_meta
    (clients : List (String × StdioPool.ClientState)) (toolName : String)
    (args : JVal) (m : StdioPool.Meta) :
    (∀ sn req,
      StdioPool.callTool clients toolName args (some m) = Except.ok (sn, req) →
      req.method = "tools/call" ∧ req.name = toolName ∧
      req.arguments = args ∧ req.meta_ = none) ∧
    ((∀ p ∈ clients, ∀ ts, p.2.tools = Except.ok ts →
        ts.contains toolName = false) →
      StdioPool.callTool clients toolName args (some m) =
        Except.error ("Tool not found: " ++ toolName)) ∧
    (∀ pre sn c post ts,
      clients = pre ++ (sn, c) :: post →
      c.tools = Except.ok ts → ts.contains toolName = true →
      (∀ p ∈ pre, ∀ ts2, p.2.tools = Except.ok ts2 →
        ts2.contains toolName = false) →
      StdioPool.callTool clients toolName args (some m) =
        Except.ok (sn, StdioPool.clientCallTool toolName args)) := by
  refine ⟨?_, ?_, ?_⟩
  · induction clients with
    | nil =>
      intro sn req h
      exact absurd h (by simp [StdioPool.callTool])
    | cons hd tl ih =>
      intro sn req h
      obtain ⟨n0, c0⟩ := hd
      rw [StdioPool.callTool] at h
      split at h
      · exact ih sn req h
      · split at h
        · injection h with h2
          injection h2 with h3 h4
          rw [← h4]
          exact ⟨rfl, rfl, rfl, rfl⟩
        · exact ih sn req h
  · induction clients with
    | nil =>
      intro _
      rw [StdioPool.callTool]
    | cons hd tl ih =>
      intro habs
      obtain ⟨n0, c0⟩ := hd
      rw [StdioPool.callTool]
      split
      next e heq =>
        exact ih (fun p hp => habs p (List.mem_cons_of_mem _ hp))
      next ts heq =>
        have hcont := habs (n0, c0) (List.mem_cons_self _ _) ts heq
        rw [if_neg (by simpa using hcont)]
        exact ih (fun p hp => habs p (List.mem_cons_of_mem _ hp))
  · intro pre
    induction pre generalizing clients with
    | nil =>
      intro sn c post ts hcl hc hcont _
      subst hcl
      simp only [List.nil_append]
      rw [StdioPool.callTool]
      split
      next e heq =>
        exact absurd (hc.symm.trans heq) (by simp)
      next ts2 heq =>
        injection hc.symm.trans heq with h2
        subst h2
        rw [if_pos hcont]
    | cons q pre2 ih =>
      intro sn c post ts hcl hc hcont hpre
      subst hcl
      obtain ⟨nq, cq⟩ := q
      simp only [List.cons_append]
      rw [StdioPool.callTool]
      split
      next e heq =>
        exact ih _ sn c post ts rfl hc hcont
          (fun p hp => hpre p (List.mem_cons_of_mem _ hp))
      next ts2 heq =>
        have hno := hpre (nq, cq) (List.mem_cons_self _ _) ts2 heq
        rw [if_neg (by simpa using hno)]
        exact ih _ sn c post ts rfl hc hcont
          (fun p hp => hpre p (List.mem_cons_of_mem _ hp))

/-- Witness for C8: on a two-child pool, calling `beta` with a `_meta`
carrying a conversation id dispatches to the second child with
`_meta = none`, and calling an unknown tool raises the routing error. -/
theorem C8_callTool_routing_and_meta_witness :
    (StdioPool.ToolCallRequest.meta_
      (StdioPool.clientCallTool ("beta") (JVal.str "a")) = none) ∧
    StdioPool.callTool
      [("srv1", ⟨Except.ok ["alpha"]⟩), ("srv2", ⟨Except.ok ["beta"]⟩)]
      ("gamma") (JVal.str "a") (some ⟨some ("c1"), none, none⟩) =
      Except.error ("Tool not found: gamma") := by
  have h := C8_callTool_routing_and_meta
    [("srv1", ⟨Except.ok ["alpha"]⟩), ("srv2", ⟨Except.ok ["beta"]⟩)]
    ("beta") (JVal.str "a") ⟨some ("c1"), none, none⟩
  have hg := C8_callTool_routing_and_meta
    [("srv1", ⟨Except.ok ["alpha"]⟩), ("srv2", ⟨Except.ok ["beta"]⟩)]
    ("gamma") (JVal.str "a") ⟨some ("c1"), none, none⟩
  refine ⟨(h.1 ("srv2") (StdioPool.clientCallTool ("beta") (JVal.str "a"))
    (by rfl)).2.2.2, ?_⟩
  refine hg.2.1 ?_
  intro p hp ts hts
  simp only [List.mem_cons, List.not_mem_nil, or_false] at hp
  rcases hp with rfl | rfl
  · injection hts with h2
    subst h2
    decide
  · injection hts with h2
    subst h2
    decide

/-- Claim C9: in both registries, a resource owned by the requesting user
is always accessible; a system-owned resource requested by another user
is accessible exactly when the user's tier is ≤ the resource's tier, the
user's tier defaulting to 4 (lowest privilege) when the user is unknown
or the tier lookup fails; a resource owned by any other user is never
accessible — the check raises the access-denied error. -/
theorem C9_registry_access_control (userId : String)
    (lookupN : NeuronRegistry.UserLookup) (lookupG : GraphRegistry.UserLookup)
    (n : NeuronRegistry.NeuronConfig) (g : GraphRegistry.GraphOwnership) :
    (NeuronRegistry.getUserTier NeuronRegistry.UserLookup.failed = 4 ∧
      NeuronRegistry.getUserTier NeuronRegistry.UserLookup.missing = 4 ∧
      GraphRegistry.getUserTier GraphRegistry.UserLookup.failed = 4 ∧
      GraphRegistry.getUserTier GraphRegistry.UserLookup.missing = 4) ∧
    (n.userId = userId →
      NeuronRegistry.validateAccess n userId lookupN = Except.ok ()) ∧
    (n.userId = "system" → userId ≠ "system" →
      (NeuronRegistry.validateAccess n userId lookupN = Except.ok () ↔
        NeuronRegistry.getUserTier lookupN ≤ n.tier)) ∧
    (n.userId ≠ userId → n.userId ≠ "system" →
      NeuronRegistry.validateAccess n userId lookupN =
        Except.error ("Neuron '" ++ n.id ++ "' is private")) ∧
    (g.userId = userId →
      GraphRegistry.validateAccess g userId lookupG = Except.ok ()) ∧
    (g.userId = "system" → userId ≠ "system" →
      (GraphRegistry.validateAccess g userId lookupG = Except.ok () ↔
        GraphRegistry.getUserTier lookupG ≤ g.tier)) ∧
    (g.userId ≠ userId → g.userId ≠ "system" →
      GraphRegistry.validateAccess g userId lookupG =
        Except.error ("Graph '" ++ g.graphId ++
          "' is private and owned by another user")) := by
  refine ⟨⟨rfl, rfl, rfl, rfl⟩, ?_, ?_, ?_, ?_, ?_, ?_⟩
  · intro h
    rw [NeuronRegistry.validateAccess, if_pos h]
  · intro hs hu
    rw [NeuronRegistry.validateAccess,
      if_neg (fun hh => hu (hh.symm.trans hs)), if_pos hs]
    by_cases ht : NeuronRegistry.getUserTier lookupN > n.tier
    · rw [if_pos ht]
      exact ⟨fun hcontra => absurd hcontra (by simp),
        fun hle => absurd ht (by omega)⟩
    · rw [if_neg ht]
      push_neg at ht
      exact ⟨fun _ => ht, fun _ => rfl⟩
  · intro hne hns
    rw [NeuronRegistry.validateAccess, if_neg hne, if_neg hns]
  · intro h
    rw [GraphRegistry.validateAccess, if_pos h]
  · intro hs hu
    rw [GraphRegistry.validateAccess,
      if_neg (fun hh => hu (hh.symm.trans hs)), if_pos hs]
    by_cases ht : GraphRegistry.getUserTier lookupG > g.tier
    · rw [if_pos ht]
      exact ⟨fun hcontra => absurd hcontra (by simp),
        fun hle => absurd ht (by omega)⟩
    · rw [if_neg ht]
      push_neg at ht
      exact ⟨fun _ => ht, fun _ => rfl⟩
  · intro hne hns
    rw [GraphRegistry.validateAccess, if_neg hne, if_neg hns]

/-- Witness for C9: user `u1` of tier 2 may use the system neuron of tier
3, and is denied another user's graph. -/
theorem C9_registry_access_control_witness :
    NeuronRegistry.validateAccess ⟨"n1", "system", 3⟩ ("u1")
      (NeuronRegistry.UserLookup.found 2) = Except.ok () ∧
    GraphRegistry.validateAccess ⟨"g1", "u2", 1⟩ ("u1")
      (GraphRegistry.UserLookup.found (some 2)) =
      Except.error ("Graph 'g1' is private and owned by another user") := by
  have h := C9_registry_access_control ("u1")
    (NeuronRegistry.UserLookup.found 2) (GraphRegistry.UserLookup.found (some 2))
    ⟨"n1", "system", 3⟩ ⟨"g1", "u2", 1⟩
  exact ⟨(h.2.2.1 rfl (by decide)).mpr (by decide),
    h.2.2.2.2.2.2 (by decide) (by decide)⟩

/-- Claim C10: when the lifecycle grants no generation id, `respond`
throws the in-progress error having issued only the conflict warning: the
history store receives no `store_message`, no stream is registered, and
the graph is not invoked; when an id is granted, the call proceeds
(and does store the user message). -/
theorem C10_generation_conflict_aborts_early (stream : Bool) (q : String) :
    ((Respond.respondRun none stream q).1 =
      Except.error ("A generation is already in progress for this conversation")) ∧
    ((Respond.respondRun none stream q).2 =
      [Respond.Effect.logWarn ("Generation already in progress for conversation")]) ∧
    (∀ role c,
      Respond.Effect.storeMessage role c ∉ (Respond.respondRun none stream q).2) ∧
    (∀ gid,
      Respond.Effect.registerStream gid ∉ (Respond.respondRun none stream q).2) ∧
    Respond.Effect.invokeGraph ∉ (Respond.respondRun none stream q).2 ∧
    (∀ gid, (Respond.respondRun (some gid) stream q).1 = Except.ok () ∧
      Respond.Effect.storeMessage ("user") q ∈
        (Respond.respondRun (some gid) stream q).2) := by
  refine ⟨rfl, rfl, ?_, ?_, ?_, ?_⟩
  · intro role c h
    simp [Respond.respondRun] at h
  · intro gid h
    simp [Respond.respondRun] at h
  · intro h
    simp [Respond.respondRun] at h
  · intro gid
    refine ⟨rfl, ?_⟩
    simp [Respond.respondRun]

/-- Witness for C10: with no generation granted, the call with a
streaming request and query `hi` errors and stores no user message. -/
theorem C10_generation_conflict_aborts_early_witness :
    (Respond.respondRun none true ("hi")).1 =
      Except.error ("A generation is already in progress for this conversation") ∧
    Respond.Effect.storeMessage ("user") ("hi") ∉
      (Respond.respondRun none true ("hi")).2 :=
  ⟨(C10_generation_conflict_aborts_early true ("hi")).1,
   (C10_generation_conflict_aborts_early true ("hi")).2.2.1 ("user") ("hi")⟩

/-- Claim C4 (amended): whenever the scanner detects `</think>` (thinking
mode, tag at the head of a more-than-8-character buffer), that step
leaves thinking mode, emits exactly the one synthetic single-space
content chunk, sets `streamedTokens`, and stores the trimmed thinking
buffer when it is nonempty and the ids are present.  Because the
synthetic space sets `streamedTokens`, whitespace after the closing tag
is NOT dropped: the stream `<think>plan</think> answer` persists
`" answer"` (leading space kept), with thoughts record `"plan"`, and
yields the space before any batched content chunk. -/
theorem C4_stream_close_tag (cfg : Streaming.StreamCfg) (st : Streaming.StState)
    (rest : List Char) (hin : st.inThinkingTag = true)
    (hpb : st.pendingBuffer = Streaming.closeTag ++ rest) (hrest : rest ≠ []) :
    Streaming.procStep cfg st =
      some (Streaming.closeThink cfg st rest, [Streaming.StreamEv.space]) ∧
    (Streaming.closeThink cfg st rest).streamedTokens = true ∧
    (Streaming.closeThink cfg st rest).inThinkingTag = false ∧
    (Streaming.closeThink cfg st rest).thoughts = st.thoughts ++
      (if trimChars st.thinkingBuffer ≠ [] ∧ cfg.hasIds = true then
        [String.mk (trimChars st.thinkingBuffer)] else []) ∧
    Streaming.persistedContent ⟨true, true⟩ ["<think>plan</think> answer"]
      = " answer" ∧
    Streaming.storedThoughts ⟨true, true⟩ ["<think>plan</think> answer"]
      = ["plan"] ∧
    (Streaming.runStream ⟨true, true⟩ ["<think>plan</think> answer"]).2 =
      [Streaming.StreamEv.status ("thinking"), Streaming.StreamEv.thinkingChunk 'p',
       Streaming.StreamEv.thinkingChunk 'l', Streaming.StreamEv.thinkingChunk 'a',
       Streaming.StreamEv.thinkingChunk 'n', Streaming.StreamEv.space,
       Streaming.StreamEv.chunk (" answer")] := by
  refine ⟨?_, rfl, rfl, rfl, rfl, rfl, rfl⟩
  have hlen : ¬ (Streaming.closeTag ++ rest).length ≤ 8 := by
    rw [List.length_append]
    have h1 : 0 < rest.length := List.length_pos.mpr hrest
    have h2 : Streaming.closeTag.length = 8 := rfl
    omega
  rw [Streaming.procStep, hpb, hin]
  rw [if_neg hlen]
  rw [if_neg (by simp)]
  rw [if_pos ⟨rfl, by rw [stripLit_append]; rfl⟩]
  rw [stripLit_append]
  rfl

/-- Witness for C4: a concrete close-tag step on the state reached after
scanning `<think>plan`, with `</think> answer` pending. -/
theorem C4_stream_close_tag_witness :
    Streaming.procStep ⟨true, true⟩
      ⟨[], false, false, ("plan").toList, true, ("</think> answer").toList, [], []⟩ =
      some (Streaming.closeThink ⟨true, true⟩
        ⟨[], false, false, ("plan").toList, true, ("</think> answer").toList, [], []⟩
        ((" answer").toList), [Streaming.StreamEv.space]) ∧
    (Streaming.closeThink ⟨true, true⟩
      ⟨[], false, false, ("plan").toList, true, ("</think> answer").toList, [], []⟩
      ((" answer").toList)).thoughts = ["plan"] := by
  have h := C4_stream_close_tag ⟨true, true⟩
    ⟨[], false, false, ("plan").toList, true, ("</think> answer").toList, [], []⟩
    ((" answer").toList) rfl (by decide) (by decide)
  exact ⟨h.1, by decide⟩

/-- Counterexample for C4 as stated: the leading whitespace after the
thinking block is not dropped (the synthetic space has already set
`streamedTokens`), so the persisted content is `" answer"`, not
`"answer"`; the thinking record does hold `"plan"`. -/
theorem C4_counterexample :
    Streaming.persistedContent ⟨true, true⟩ ["<think>plan</think> answer"]
      = " answer" ∧
    Streaming.persistedContent ⟨true, true⟩ ["<think>plan</think> answer"]
      ≠ "answer" ∧
    Streaming.storedThoughts ⟨true, true⟩ ["<think>plan</think> answer"]
      = ["plan"] := by
  refine ⟨rfl, by decide, rfl⟩
